import Mathlib

/-!
Verification development for the promptwright synthetic-dataset generator.

The Python source is shallowly embedded: JSON values become an inductive
type, dict/list operations that can raise in Python become `Except`-valued
functions (or functions returning an `Option String` error component when
the original code mutates state before raising), and the language-model
completion backend becomes an oracle parameter.
-/

/-- JSON values as produced by `json.loads` and consumed by the dataset
pipeline.  Numbers are restricted to integers (the code under study never
manipulates fractional JSON numbers).  Objects keep key order, mirroring
Python dicts. -/
inductive Json where
  | null
  | bool (b : Bool)
  | num (n : Int)
  | str (s : String)
  | arr (items : List Json)
  | obj (members : List (String × Json))

/-- Key lookup in an embedded Python dict (first, hence unique, occurrence). -/
def lookupKey (kvs : List (String × Json)) (k : String) : Option Json :=
  match kvs with
  | [] => none
  | (k', v) :: rest => if k' = k then some v else lookupKey rest k

/-- Insertion into an embedded Python dict: replace in place if the key is
present, otherwise append (this is exactly CPython dict-update order). -/
def dictInsert (kvs : List (String × Json)) (k : String) (v : Json) :
    List (String × Json) :=
  match kvs with
  | [] => [(k, v)]
  | (k', v') :: rest =>
      if k' = k then (k', v) :: rest else (k', v') :: dictInsert rest k v

/-- Substring test on character lists, modelling Python `needle in haystack`
for strings. -/
def containsSub : List Char → List Char → Bool
  | hay, needle =>
    needle.isPrefixOf hay ||
      (match hay with
       | [] => false
       | _ :: t => containsSub t needle)

/-- Python `key in container` for a string key.  Dicts test keys, lists test
elements, strings test substrings, anything else raises `TypeError`. -/
def pyContains (container : Json) (k : String) : Except String Bool :=
  match container with
  | .obj kvs => .ok (kvs.any (fun kv => kv.1 = k))
  | .arr xs =>
      .ok (xs.any (fun x => match x with | .str s => s = k | _ => false))
  | .str s => .ok (containsSub s.data k.data)
  | _ => .error "TypeError: argument of type int is not iterable"

/-- Python `container[key]` for a string key.  Only dicts support string
indices; a missing key raises `KeyError`. -/
def pyGet (container : Json) (k : String) : Except String Json :=
  match container with
  | .obj kvs =>
      match lookupKey kvs k with
      | some v => .ok v
      | none => .error ("KeyError: " ++ k)
  | _ => .error "TypeError: indices must be integers"

/-- Python `for x in v`: lists yield elements, dicts yield their keys,
strings yield one-character strings, anything else raises `TypeError`. -/
def pyIter (v : Json) : Except String (List Json) :=
  match v with
  | .arr xs => .ok xs
  | .obj kvs => .ok (kvs.map (fun kv => Json.str kv.1))
  | .str s => .ok (s.data.map (fun c => Json.str (String.mk [c])))
  | _ => .error "TypeError: object is not iterable"

/-- Python `len(v)`. -/
def pyLen : Json → Except String Nat
  | .arr xs => .ok xs.length
  | .str s => .ok s.data.length
  | .obj kvs => .ok kvs.length
  | _ => .error "TypeError: object has no length"

/-- Python `x in [s1, s2, ...]` where the list holds strings: equality with a
non-string value is simply `False` for the values reachable here. -/
def pyMemStrList (v : Json) (ss : List String) : Bool :=
  match v with
  | .str s => ss.contains s
  | _ => false

/-- Single-quote character, used when rendering Python `repr` output. -/
def sqChar : Char := Char.ofNat 39

/-- Opening curly brace character. -/
def lbrace : Char := Char.ofNat 123

/-- Closing curly brace character. -/
def rbrace : Char := Char.ofNat 125

/-- Double-quote character. -/
def dqChar : Char := Char.ofNat 34

/-- Rendering of a JSON value the way Python `str()` shows the corresponding
object (dict/list repr); escaping subtleties inside strings are not needed by
any claim and are elided. -/
def pyReprJson : Json → String
  | .null => "None"
  | .bool true => "True"
  | .bool false => "False"
  | .num n => toString n
  | .str s => String.mk [sqChar] ++ s ++ String.mk [sqChar]
  | .arr xs => "[" ++ String.intercalate ", " (xs.attach.map (fun x => pyReprJson x.1)) ++ "]"
  | .obj kvs => String.mk [lbrace] ++
      String.intercalate ", "
        (kvs.attach.map (fun kv =>
          String.mk [sqChar] ++ kv.1.1 ++ String.mk [sqChar] ++ ": " ++ pyReprJson kv.1.2)) ++
      String.mk [rbrace]
decreasing_by
  · have h1 := List.sizeOf_lt_of_mem x.2
    have h3 : sizeOf (Json.arr xs) = 1 + sizeOf xs := by simp
    omega
  · have h1 : sizeOf kv.1 < sizeOf kvs := List.sizeOf_lt_of_mem kv.2
    have h2 : sizeOf kv.1.2 < sizeOf kv.1 := by
      obtain ⟨a, b⟩ := kv.1
      show sizeOf b < sizeOf (a, b)
      simp only [Prod.mk.sizeOf_spec]
      omega
    have h3 : sizeOf (Json.obj kvs) = 1 + sizeOf kvs := by simp
    omega

/-- Dataset state: the validated sample collection and the side list of
rejected samples (`Dataset.__init__` in dataset.py). -/
structure DsState where
  samples : List Json
  failed_samples : List Json

/-- Validation of one message dict, following `Dataset.validate_sample`
line by line: presence of "role" and "content", role in the closed set,
content a string.  Python evaluation order of the `or` is kept so that the
same inputs raise. -/
def validateMessage (message : Json) : Except String Bool := do
  let hasRole ← pyContains message "role"
  if !hasRole then return false
  let hasContent ← pyContains message "content"
  if !hasContent then return false
  let roleVal ← pyGet message "role"
  if !(pyMemStrList roleVal ["user", "assistant", "system"]) then return false
  let contentVal ← pyGet message "content"
  match contentVal with
  | .str _ => return true
  | _ => return false

/-- Loop of `Dataset.validate_sample` over the messages. -/
def validateMessages : List Json → Except String Bool
  | [] => .ok true
  | m :: rest => do
    let ok ← validateMessage m
    if ok then validateMessages rest else return false

/-- Model of `Dataset.validate_sample` (dataset.py lines 78-101).  The
`Except` layer records where the Python code would raise (e.g. a
non-iterable "messages" value). -/
def validate_sample (sample : Json) : Except String Bool := do
  let hasMsgs ← pyContains sample "messages"
  if !hasMsgs then return false
  let msgsVal ← pyGet sample "messages"
  let msgs ← pyIter msgsVal
  validateMessages msgs

/-- Failure description built by `Dataset.add_samples`. -/
def failureDescription (sample : Json) : String :=
  "Invalid sample format: " ++ pyReprJson sample

/-- Loop of `Dataset.add_samples`: valid samples are appended to the
dataset, invalid ones go to the failure lists.  When `validate_sample`
raises, the state mutated so far is kept (Python appends before raising)
and the error is reported in the last component. -/
def add_samplesGo (st : DsState) (failed : List Json) (descs : List String) :
    List Json → DsState × List Json × List String × Option String
  | [] => (st, failed, descs, none)
  | s :: rest =>
    match validate_sample s with
    | .ok true =>
        add_samplesGo { st with samples := st.samples ++ [s] } failed descs rest
    | .ok false =>
        add_samplesGo { st with failed_samples := st.failed_samples ++ [s] }
          (failed ++ [s]) (descs ++ [failureDescription s]) rest
    | .error m => (st, failed, descs, some m)

/-- Model of `Dataset.add_samples` (dataset.py lines 103-123). -/
def add_samples (st : DsState) (samples : List Json) :
    DsState × List Json × List String × Option String :=
  add_samplesGo st [] [] samples

/-- Loop of `Dataset.from_list`: same validation split, but failures are
not returned. -/
def from_listGo (st : DsState) : List Json → DsState × Option String
  | [] => (st, none)
  | s :: rest =>
    match validate_sample s with
    | .ok true => from_listGo { st with samples := st.samples ++ [s] } rest
    | .ok false => from_listGo { st with failed_samples := st.failed_samples ++ [s] } rest
    | .error m => (st, some m)

/-- Model of `Dataset.from_list` (dataset.py lines 59-76). -/
def from_list (l : List Json) : DsState × Option String :=
  from_listGo ⟨[], []⟩ l

/-- Statistics record returned by `Dataset.get_statistics` in the non-empty
case.  Averages and the per-role shares are rational numbers (Python returns
floats; all divisions reachable in the claims are exact). -/
structure DatasetStats where
  total_samples : Nat
  avg_messages_per_sample : Rat
  role_user : Rat
  role_assistant : Rat
  role_system : Rat
  avg_content_length : Rat

/-- Result of `get_statistics`: either the explicit empty-dataset marker
dict or the statistics record. -/
inductive StatsResult where
  | emptyMarker
  | stats (s : DatasetStats)

/-- Accumulator for the counting loop of `get_statistics`. -/
structure RoleCounts where
  user : Nat
  assistant : Nat
  system : Nat
  contentLen : Nat
  msgCount : Nat

/-- Body of the inner loop of `get_statistics`: bump the role counter
(raising `KeyError` for a role outside the fixed dict), add the content
length, bump the message counter. -/
def countMessage (rc : RoleCounts) (message : Json) : Except String RoleCounts := do
  let roleVal ← pyGet message "role"
  let rc' ←
    match roleVal with
    | .str "user" => .ok { rc with user := rc.user + 1 }
    | .str "assistant" => .ok { rc with assistant := rc.assistant + 1 }
    | .str "system" => .ok { rc with system := rc.system + 1 }
    | _ => .error "KeyError: role"
  let contentVal ← pyGet message "content"
  let cl ← pyLen contentVal
  .ok { rc' with contentLen := rc'.contentLen + cl, msgCount := rc'.msgCount + 1 }

/-- Inner loop of `get_statistics` over one sample's messages. -/
def countMessages (rc : RoleCounts) : List Json → Except String RoleCounts
  | [] => .ok rc
  | m :: rest => do
    let rc' ← countMessage rc m
    countMessages rc' rest

/-- Outer loop of `get_statistics` over the samples. -/
def countAll (rc : RoleCounts) : List Json → Except String RoleCounts
  | [] => .ok rc
  | s :: rest => do
    let mv ← pyGet s "messages"
    let msgs ← pyIter mv
    let rc' ← countMessages rc msgs
    countAll rc' rest

/-- Sum of `len(sample["messages"])` over the samples (the `total_messages`
generator expression). -/
def sumMessages : List Json → Except String Nat
  | [] => .ok 0
  | s :: rest => do
    let mv ← pyGet s "messages"
    let n ← pyLen mv
    let m ← sumMessages rest
    .ok (n + m)

/-- Model of `Dataset.get_statistics` (dataset.py lines 191-223): the empty
dataset returns the explicit marker; otherwise the role-distribution
divisions divide by the total message count, raising `ZeroDivisionError`
when that count is zero. -/
def get_statistics (samples : List Json) : Except String StatsResult :=
  if samples.isEmpty then .ok .emptyMarker
  else do
    let total_messages ← sumMessages samples
    let rc ← countAll ⟨0, 0, 0, 0, 0⟩ samples
    if rc.msgCount = 0 then
      .error "ZeroDivisionError: division by zero"
    else
      .ok (.stats
        { total_samples := samples.length
          avg_messages_per_sample := (total_messages : Rat) / (samples.length : Rat)
          role_user := (rc.user : Rat) / (rc.msgCount : Rat)
          role_assistant := (rc.assistant : Rat) / (rc.msgCount : Rat)
          role_system := (rc.system : Rat) / (rc.msgCount : Rat)
          avg_content_length := (rc.contentLen : Rat) / (rc.msgCount : Rat) })

/-- Record returned by `TopicTreeValidator.validate_configuration`; the
suggestion fields are only present (Some) in the invalid branch, exactly as
the Python dict only carries them there. -/
structure ValidationRecommendation where
  valid : Bool
  suggested_num_steps : Option Nat
  suggested_batch_size : Option Nat
  total_tree_paths : Nat
  total_requested_paths : Nat

/-- Model of `TopicTreeValidator.calculate_paths`. -/
def calculate_paths (tree_degree tree_depth : Nat) : Nat :=
  tree_degree ^ tree_depth

/-- Model of `TopicTreeValidator.validate_configuration` (topic_tree.py
lines 72-101). -/
def validate_configuration (tree_degree tree_depth num_steps batch_size : Nat) :
    ValidationRecommendation :=
  let total_requested_paths := num_steps * batch_size
  let total_tree_paths := calculate_paths tree_degree tree_depth
  if total_requested_paths > total_tree_paths then
    { valid := false
      suggested_num_steps := some (total_tree_paths / batch_size)
      suggested_batch_size := some (total_tree_paths / num_steps)
      total_tree_paths := total_tree_paths
      total_requested_paths := total_requested_paths }
  else
    { valid := true
      suggested_num_steps := none
      suggested_batch_size := none
      total_tree_paths := total_tree_paths
      total_requested_paths := total_requested_paths }

/-- Record appended to `TopicTree.failed_generations` when a node's subtopic
generation exhausts its retries. -/
structure FailedGeneration where
  path : List String
  attempts : Nat
  last_error : String

/-- Outcome of one completion attempt inside `TopicTree.get_subtopics`, at
the boundary where `litellm.completion` plus `validate_and_clean_response`
have run: either the call raised, or it produced a (possibly unusable) list
of subtopic strings. -/
inductive AttemptOutcome where
  | exc (msg : String)
  | parsed (subtopics : List String)

/-- Python whitespace test used by `str.strip` and `str.split` (the ASCII
fragment; all inputs reachable in the claims are ASCII). -/
def pyIsSpaceChar (c : Char) : Bool :=
  c == ' ' || c == '\t' || c == '\n' || c == '\r' ||
    c == Char.ofNat 11 || c == Char.ofNat 12

/-- Python `str.strip()` on a character list. -/
def pyStripList (cs : List Char) : List Char :=
  ((cs.dropWhile pyIsSpaceChar).reverse.dropWhile pyIsSpaceChar).reverse

/-- Python `str.strip()`. -/
def pyStrip (s : String) : String :=
  String.mk (pyStripList s.data)

/-- Per-item cleaning inside `get_subtopics`: strip each subtopic and drop
the ones that become empty. -/
def attemptClean (subs : List String) : List String :=
  (subs.map (fun t => pyStrip t)).filter (fun t => !t.data.isEmpty)

/-- Retry loop of `get_subtopics` (topic_tree.py lines 170-210): up to
`remaining` further attempts, tracking the retry index and the last error
text.  An attempt is accepted when the parsed list is non-empty and the
cleaned list has at least `num` entries. -/
def getSubtopicsGo (attemptFn : Nat → AttemptOutcome) (num : Nat) :
    Nat → Nat → String → Option (List String) × String
  | _, 0, lastError => (none, lastError)
  | retries, remaining+1, lastError =>
    match attemptFn retries with
    | .exc msg => getSubtopicsGo attemptFn num (retries+1) remaining msg
    | .parsed subs =>
      let cleaned := attemptClean subs
      if subs.isEmpty = false ∧ num ≤ cleaned.length then
        (some (cleaned.take num), lastError)
      else
        getSubtopicsGo attemptFn num (retries+1) remaining
          "Insufficient valid subtopics generated"

/-- Placeholder labels synthesized after all retries fail (the real label
text uses the path's last segment; an empty path cannot occur because the
builder always passes the root). -/
def defaultSubtopics (node_path : List String) (num : Nat) : List String :=
  (List.range num).map (fun i =>
    "subtopic_" ++ toString (i + 1) ++ "_for_" ++ node_path.getLastD "")

/-- Model of `TopicTree.get_subtopics` (topic_tree.py lines 153-222): on
success the cleaned list truncated to `num`; after three failed attempts the
placeholder labels plus one `FailedGeneration` record. -/
def get_subtopics (attemptFn : Nat → AttemptOutcome) (node_path : List String)
    (num : Nat) : List String × List FailedGeneration :=
  match getSubtopicsGo attemptFn num 0 3 "No error recorded" with
  | (some l, _) => (l, [])
  | (none, err) => (defaultSubtopics node_path num, [⟨node_path, 3, err⟩])

/-- Model of `TopicTree.build_subtree` (topic_tree.py lines 224-273).  The
oracle gives each node's attempt outcomes.  Subnode re-stringification is
the identity here because `get_subtopics` already returns strings.  The
second component collects the `failed_generations` entries appended during
the build. -/
def build_subtree (oracle : List String → Nat → AttemptOutcome)
    (tree_degree : Nat) :
    Nat → List String → List (List String) × List FailedGeneration
  | 0, node_path => ([node_path], [])
  | d+1, node_path =>
    let sf := get_subtopics (oracle node_path) node_path tree_degree
    let results := sf.1.map (fun s => build_subtree oracle tree_degree d (node_path ++ [s]))
    ((results.map Prod.fst).flatten, sf.2 ++ (results.map Prod.snd).flatten)

/-- Number of internal nodes (nodes that invoke `get_subtopics`) of the full
tree of the given degree and depth. -/
def internalNodeCount (tree_degree : Nat) : Nat → Nat
  | 0 => 0
  | d+1 => 1 + tree_degree * internalNodeCount tree_degree d

theorem list_sum_map_const {α : Type} (l : List α) (c : Nat) (f : α → Nat)
    (h : ∀ x ∈ l, f x = c) : (l.map f).sum = l.length * c := by
  induction l with
  | nil => simp
  | cons a t ih =>
    have ha := h a (by simp)
    have ht := ih (fun x hx => h x (by simp [hx]))
    simp only [List.map_cons, List.sum_cons, List.length_cons, ha, ht]
    ring

theorem list_flatten_nil_of_all {α : Type} (l : List (List α))
    (h : ∀ x ∈ l, x = ([] : List α)) : l.flatten = [] := by
  induction l with
  | nil => simp
  | cons a t ih =>
    have ha := h a (by simp)
    have ht := ih (fun x hx => h x (by simp [hx]))
    simp [ha, ht]

theorem get_subtopics_success (attemptFn : Nat → AttemptOutcome)
    (node_path : List String) (num : Nat)
    (h : ∀ i, ∃ subs, attemptFn i = .parsed subs ∧ subs.isEmpty = false ∧
      num ≤ (attemptClean subs).length) :
    ∃ l, get_subtopics attemptFn node_path num = (l, []) ∧ l.length = num := by
  obtain ⟨subs, h0, hne, hlen⟩ := h 0
  refine ⟨(attemptClean subs).take num, ?_, ?_⟩
  · unfold get_subtopics getSubtopicsGo
    rw [h0]
    simp [hne, hlen]
  · simp [List.length_take]
    omega

theorem getSubtopicsGo_exc (attemptFn : Nat → AttemptOutcome)
    (num retries remaining : Nat) (lastError msg : String)
    (h : attemptFn retries = .exc msg) :
    getSubtopicsGo attemptFn num retries (remaining + 1) lastError =
      getSubtopicsGo attemptFn num (retries + 1) remaining msg := by
  conv_lhs => unfold getSubtopicsGo
  rw [h]

theorem get_subtopics_fail (attemptFn : Nat → AttemptOutcome)
    (node_path : List String) (num : Nat)
    (h : ∀ i, ∃ msg, attemptFn i = .exc msg) :
    ∃ err, get_subtopics attemptFn node_path num =
      (defaultSubtopics node_path num, [⟨node_path, 3, err⟩]) := by
  obtain ⟨m0, h0⟩ := h 0
  obtain ⟨m1, h1⟩ := h 1
  obtain ⟨m2, h2⟩ := h 2
  refine ⟨m2, ?_⟩
  have s1 : getSubtopicsGo attemptFn num 0 3 "No error recorded"
      = getSubtopicsGo attemptFn num 1 2 m0 :=
    getSubtopicsGo_exc attemptFn num 0 2 "No error recorded" m0 h0
  have s2 : getSubtopicsGo attemptFn num 1 2 m0
      = getSubtopicsGo attemptFn num 2 1 m1 :=
    getSubtopicsGo_exc attemptFn num 1 1 m0 m1 h1
  have s3 : getSubtopicsGo attemptFn num 2 1 m1
      = getSubtopicsGo attemptFn num 3 0 m2 :=
    getSubtopicsGo_exc attemptFn num 2 0 m1 m2 h2
  have key : getSubtopicsGo attemptFn num 0 3 "No error recorded" = (none, m2) := by
    rw [s1, s2, s3]
    rfl
  unfold get_subtopics
  rw [key]

theorem defaultSubtopics_length (node_path : List String) (num : Nat) :
    (defaultSubtopics node_path num).length = num := by
  simp [defaultSubtopics]

theorem build_subtree_success (oracle : List String → Nat → AttemptOutcome)
    (tree_degree : Nat)
    (h : ∀ p i, ∃ subs, oracle p i = .parsed subs ∧ subs.isEmpty = false ∧
      tree_degree ≤ (attemptClean subs).length) :
    ∀ depth node_path,
      (build_subtree oracle tree_degree depth node_path).1.length = tree_degree ^ depth ∧
      (∀ q ∈ (build_subtree oracle tree_degree depth node_path).1,
        q.length = node_path.length + depth) ∧
      (build_subtree oracle tree_degree depth node_path).2 = [] := by
  intro depth
  induction depth with
  | zero => intro node_path; simp [build_subtree]
  | succ d ih =>
    intro node_path
    obtain ⟨l, hget, hlen⟩ :=
      get_subtopics_success (oracle node_path) node_path tree_degree (h node_path)
    unfold build_subtree
    rw [hget]
    simp only []
    refine ⟨?_, ?_, ?_⟩
    · rw [List.length_flatten, List.map_map, List.map_map]
      rw [list_sum_map_const _ (tree_degree ^ d)]
      · rw [hlen]; ring
      · intro s hs
        exact (ih (node_path ++ [s])).1
    · intro q hq
      rw [List.mem_flatten] at hq
      obtain ⟨r, hr, hqr⟩ := hq
      rw [List.map_map, List.mem_map] at hr
      obtain ⟨s, hs, rfl⟩ := hr
      have := (ih (node_path ++ [s])).2.1 q hqr
      simp at this
      omega
    · simp only [List.nil_append]
      apply list_flatten_nil_of_all
      intro x hx
      rw [List.map_map, List.mem_map] at hx
      obtain ⟨s, hs, rfl⟩ := hx
      exact (ih (node_path ++ [s])).2.2

theorem build_subtree_fail (oracle : List String → Nat → AttemptOutcome)
    (tree_degree : Nat)
    (h : ∀ p i, ∃ msg, oracle p i = .exc msg) :
    ∀ depth node_path,
      (build_subtree oracle tree_degree depth node_path).1.length = tree_degree ^ depth ∧
      (∀ q ∈ (build_subtree oracle tree_degree depth node_path).1,
        q.length = node_path.length + depth) ∧
      (build_subtree oracle tree_degree depth node_path).2.length =
        internalNodeCount tree_degree depth := by
  intro depth
  induction depth with
  | zero => intro node_path; simp [build_subtree, internalNodeCount]
  | succ d ih =>
    intro node_path
    obtain ⟨err, hget⟩ :=
      get_subtopics_fail (oracle node_path) node_path tree_degree (h node_path)
    unfold build_subtree
    rw [hget]
    simp only []
    refine ⟨?_, ?_, ?_⟩
    · rw [List.length_flatten, List.map_map, List.map_map]
      rw [list_sum_map_const _ (tree_degree ^ d)]
      · rw [defaultSubtopics_length]; ring
      · intro s hs
        exact (ih (node_path ++ [s])).1
    · intro q hq
      rw [List.mem_flatten] at hq
      obtain ⟨r, hr, hqr⟩ := hq
      rw [List.map_map, List.mem_map] at hr
      obtain ⟨s, hs, rfl⟩ := hr
      have := (ih (node_path ++ [s])).2.1 q hqr
      simp at this
      omega
    · rw [List.length_append, List.length_flatten, List.map_map, List.map_map]
      rw [list_sum_map_const _ (internalNodeCount tree_degree d)]
      · rw [defaultSubtopics_length]
        simp [internalNodeCount]
      · intro s hs
        exact (ih (node_path ++ [s])).2.2

theorem internalNodeCount_eq_geom_sum (tree_degree : Nat) :
    ∀ depth, internalNodeCount tree_degree depth =
      ∑ i ∈ Finset.range depth, tree_degree ^ i := by
  intro depth
  induction depth with
  | zero => simp [internalNodeCount]
  | succ d ih =>
    rw [Finset.sum_range_succ']
    simp only [pow_zero, internalNodeCount, ih, pow_succ]
    rw [← Finset.sum_mul]
    ring

/-- C1: with every per-node subtopic generation succeeding, a tree build
from the root yields exactly `degree ^ depth` paths of length `depth + 1`
and no failed-generation entries; with every completion attempt failing, it
still yields `degree ^ depth` (placeholder) paths of the same lengths, and
the failed-generations list gains exactly one entry per permanently-failed
node, i.e. one per internal node: `∑ i < depth, degree ^ i` in total. -/
theorem c1_tree_build_counts (oracle : List String → Nat → AttemptOutcome)
    (tree_degree tree_depth : Nat) (root : String) :
    ((∀ p i, ∃ subs, oracle p i = .parsed subs ∧ subs.isEmpty = false ∧
        tree_degree ≤ (attemptClean subs).length) →
      (build_subtree oracle tree_degree tree_depth [root]).1.length =
          tree_degree ^ tree_depth ∧
      (∀ q ∈ (build_subtree oracle tree_degree tree_depth [root]).1,
        q.length = tree_depth + 1) ∧
      (build_subtree oracle tree_degree tree_depth [root]).2 = []) ∧
    ((∀ p i, ∃ msg, oracle p i = .exc msg) →
      (build_subtree oracle tree_degree tree_depth [root]).1.length =
          tree_degree ^ tree_depth ∧
      (∀ q ∈ (build_subtree oracle tree_degree tree_depth [root]).1,
        q.length = tree_depth + 1) ∧
      (build_subtree oracle tree_degree tree_depth [root]).2.length =
        ∑ i ∈ Finset.range tree_depth, tree_degree ^ i) := by
  constructor
  · intro h
    obtain ⟨h1, h2, h3⟩ := build_subtree_success oracle tree_degree h tree_depth [root]
    refine ⟨h1, ?_, h3⟩
    intro q hq
    have := h2 q hq
    simpa [Nat.add_comm] using this
  · intro h
    obtain ⟨h1, h2, h3⟩ := build_subtree_fail oracle tree_degree h tree_depth [root]
    refine ⟨h1, ?_, ?_⟩
    · intro q hq
      have := h2 q hq
      simpa [Nat.add_comm] using this
    · rw [h3, internalNodeCount_eq_geom_sum]

/-- Witness for C1 at degree 2, depth 2, with a constant succeeding oracle
and a constant failing oracle. -/
theorem c1_tree_build_counts_witness :
    (build_subtree (fun _ _ => AttemptOutcome.parsed ["a", "b"]) 2 2 ["r"]).1.length = 4 ∧
    (build_subtree (fun _ _ => AttemptOutcome.exc "boom") 2 2 ["r"]).2.length = 3 := by
  have h1 := (c1_tree_build_counts (fun _ _ => AttemptOutcome.parsed ["a", "b"]) 2 2 "r").1
    (fun p i => ⟨["a", "b"], rfl, by decide, by decide⟩)
  have h2 := (c1_tree_build_counts (fun _ _ => AttemptOutcome.exc "boom") 2 2 "r").2
    (fun p i => ⟨"boom", rfl⟩)
  refine ⟨by simpa using h1.1, ?_⟩
  have hsum : (∑ i ∈ Finset.range 2, 2 ^ i) = 3 := by decide
  rw [h2.2.2, hsum]

/-- C6: the validator computes capacity `degree ^ depth` and requested
`num_steps * batch_size`; the result is valid iff requested ≤ capacity, the
suggestions are the floor divisions `capacity // batch_size` and
`capacity // num_steps` and are only reported in the invalid case; the
concrete instance degree=3, depth=2, num_steps=5, batch_size=2 gives
capacity 9, requested 10, valid=false, suggested_num_steps=4. -/
theorem c6_validator_capacity_check (d p n b : Nat) :
    (validate_configuration d p n b).valid = decide (n * b ≤ d ^ p) ∧
    (validate_configuration d p n b).suggested_num_steps =
      (if d ^ p < n * b then some (d ^ p / b) else none) ∧
    (validate_configuration d p n b).suggested_batch_size =
      (if d ^ p < n * b then some (d ^ p / n) else none) ∧
    (validate_configuration d p n b).total_tree_paths = d ^ p ∧
    (validate_configuration d p n b).total_requested_paths = n * b ∧
    validate_configuration 3 2 5 2 =
      { valid := false
        suggested_num_steps := some 4
        suggested_batch_size := some 1
        total_tree_paths := 9
        total_requested_paths := 10 } := by
  unfold validate_configuration calculate_paths
  by_cases h : d ^ p < n * b
  · simp [h, Nat.not_le.mpr h]
  · simp [h, Nat.not_lt.mp h]

theorem lookupKey_any (kvs : List (String × Json)) (k : String) (v : Json)
    (h : lookupKey kvs k = some v) : kvs.any (fun kv => kv.1 = k) = true := by
  induction kvs with
  | nil => simp [lookupKey] at h
  | cons a t ih =>
    rw [lookupKey] at h
    by_cases hk : a.1 = k
    · simp [hk]
    · simp [hk] at h
      simp [hk, ih h]

theorem validate_sample_empty_messages (kvs : List (String × Json))
    (hkvs : lookupKey kvs "messages" = some (Json.arr [])) :
    validate_sample (Json.obj kvs) = .ok true := by
  unfold validate_sample
  simp [pyContains, lookupKey_any kvs "messages" _ hkvs, pyGet, hkvs, pyIter,
    validateMessages, Bind.bind, Except.bind, Pure.pure, Except.pure]

theorem sumMessages_all_empty (samples : List Json)
    (hall : ∀ s ∈ samples, ∃ m, s = Json.obj m ∧
      lookupKey m "messages" = some (Json.arr [])) :
    sumMessages samples = .ok 0 := by
  induction samples with
  | nil => rfl
  | cons a t ih =>
    obtain ⟨m, rfl, hm⟩ := hall a (by simp)
    have ht := ih (fun s hs => hall s (by simp [hs]))
    unfold sumMessages
    simp [pyGet, hm, pyLen, ht, Bind.bind, Except.bind]

theorem countAll_all_empty (rc : RoleCounts) (samples : List Json)
    (hall : ∀ s ∈ samples, ∃ m, s = Json.obj m ∧
      lookupKey m "messages" = some (Json.arr [])) :
    countAll rc samples = .ok rc := by
  induction samples with
  | nil => rfl
  | cons a t ih =>
    obtain ⟨m, rfl, hm⟩ := hall a (by simp)
    have ht := ih (fun s hs => hall s (by simp [hs]))
    unfold countAll
    simp [pyGet, hm, pyIter, countMessages, ht, Bind.bind, Except.bind]

/-- C10: `validate_sample` accepts a sample whose "messages" entry is the
empty list, and `add_samples` admits it into the validated collection; on
any non-empty dataset whose samples all have empty message lists,
`get_statistics` raises a division-by-zero error instead of returning a
statistics record, although the empty dataset returns the explicit
marker. -/
theorem c10_empty_messages_statistics (kvs : List (String × Json))
    (samples : List Json)
    (hkvs : lookupKey kvs "messages" = some (Json.arr []))
    (hne : samples ≠ [])
    (hall : ∀ s ∈ samples, ∃ m, s = Json.obj m ∧
      lookupKey m "messages" = some (Json.arr [])) :
    validate_sample (Json.obj kvs) = .ok true ∧
    (add_samples ⟨[], []⟩ [Json.obj kvs]).1.samples = [Json.obj kvs] ∧
    get_statistics samples = .error "ZeroDivisionError: division by zero" ∧
    get_statistics [] = .ok .emptyMarker := by
  refine ⟨validate_sample_empty_messages kvs hkvs, ?_, ?_, rfl⟩
  · unfold add_samples add_samplesGo
    rw [validate_sample_empty_messages kvs hkvs]
    rfl
  · unfold get_statistics
    rw [List.isEmpty_eq_false_iff_exists_mem.mpr
      (by cases samples with
          | nil => exact absurd rfl hne
          | cons a t => exact ⟨a, by simp⟩)]
    simp [sumMessages_all_empty samples hall,
      countAll_all_empty ⟨0, 0, 0, 0, 0⟩ samples hall, Bind.bind, Except.bind]

/-- Witness for C10 on the one-sample dataset whose only sample has an
empty message list. -/
theorem c10_empty_messages_statistics_witness :
    validate_sample (Json.obj [("messages", Json.arr [])]) = .ok true ∧
    (add_samples ⟨[], []⟩ [Json.obj [("messages", Json.arr [])]]).1.samples =
      [Json.obj [("messages", Json.arr [])]] ∧
    get_statistics [Json.obj [("messages", Json.arr [])]] =
      .error "ZeroDivisionError: division by zero" ∧
    get_statistics [] = .ok .emptyMarker := by
  exact c10_empty_messages_statistics [("messages", Json.arr [])]
    [Json.obj [("messages", Json.arr [])]] rfl
    (by simp)
    (fun s hs => ⟨[("messages", Json.arr [])], by simpa using hs, rfl⟩)

/-- System message dict inserted by `create_data` (engine.py lines 218-221). -/
def sysMessage (orig : String) : Json :=
  Json.obj [("role", Json.str "system"), ("content", Json.str orig)]

/-- Model of the system-message insertion in `DataEngine.create_data`
(engine.py lines 215-221): when enabled and the parsed JSON has a
"messages" key, a system message holding the original system prompt is
inserted at position 0 of the message list, unconditionally.  A
non-list "messages" value makes Python raise (`insert` missing). -/
def insertSysMessage (include_sys_msg : Bool) (orig : String) (parsed : Json) :
    Except String Json :=
  if include_sys_msg then
    match pyContains parsed "messages" with
    | .error m => .error m
    | .ok false => .ok parsed
    | .ok true =>
      match parsed with
      | .obj kvs =>
        match lookupKey kvs "messages" with
        | some (Json.arr ms) =>
            .ok (Json.obj (dictInsert kvs "messages"
              (Json.arr (sysMessage orig :: ms))))
        | some _ => .error "AttributeError: object has no attribute insert"
        | none => .ok parsed
      | _ => .error "TypeError: indices must be integers"
  else .ok parsed

/-- Outcome of one `litellm.batch_completion` call in `create_data`: either
the call raised, or it returned one response per prompt; each response is
recorded here as the result of `validate_json_response` on its content
(`none` for unparseable or falsy content). -/
inductive CallOutcome where
  | raise (msg : String)
  | ok (parsed : List (Option Json))

/-- Response-processing loop of one attempt (engine.py lines 210-232):
parsed responses get the optional system message and are collected;
unparseable ones are counted as recorded failures; an exception from the
insertion aborts the attempt with the collected prefix discarded. -/
def collectSamplesGo (include_sys_msg : Bool) (orig : String)
    (samples : List Json) (parseFails : Nat) :
    List (Option Json) → List Json × Nat × Option String
  | [] => (samples, parseFails, none)
  | none :: rest =>
      collectSamplesGo include_sys_msg orig samples (parseFails + 1) rest
  | some j :: rest =>
    match insertSysMessage include_sys_msg orig j with
    | .ok j' => collectSamplesGo include_sys_msg orig (samples ++ [j']) parseFails rest
    | .error m => (samples, parseFails, some m)

/-- Result of one step's retry loop: number of completion calls issued, the
dataset state afterwards, and the step-level recorded failure (set only
when the final attempt raises). -/
structure StepOut where
  calls : Nat
  ds : DsState
  stepError : Option String

/-- Retry loop of one step of `create_data` (engine.py lines 200-260),
followed literally: the loop breaks only in the branch where at least one
sample was parsed and `dataset.add_samples` returned; a raising call (or a
raising insertion/validation) is retried, and on the last attempt its
message is recorded; a non-raising call whose responses all fail to parse
falls through to the next attempt without a break. -/
def stepLoopGo (callFn : Nat → CallOutcome) (include_sys_msg : Bool)
    (orig : String) : DsState → Nat → Nat → StepOut
  | ds, _, 0 => ⟨0, ds, none⟩
  | ds, attempt, remaining+1 =>
    match callFn attempt with
    | .raise msg =>
      if remaining = 0 then ⟨1, ds, some msg⟩
      else
        let out := stepLoopGo callFn include_sys_msg orig ds (attempt+1) remaining
        ⟨out.calls + 1, out.ds, out.stepError⟩
    | .ok parsed =>
      match collectSamplesGo include_sys_msg orig [] 0 parsed with
      | (_, _, some msg) =>
        if remaining = 0 then ⟨1, ds, some msg⟩
        else
          let out := stepLoopGo callFn include_sys_msg orig ds (attempt+1) remaining
          ⟨out.calls + 1, out.ds, out.stepError⟩
      | (samples, _, none) =>
        if samples.isEmpty then
          let out := stepLoopGo callFn include_sys_msg orig ds (attempt+1) remaining
          ⟨out.calls + 1, out.ds, out.stepError⟩
        else
          match add_samples ds samples with
          | (ds', _, _, some msg) =>
            if remaining = 0 then ⟨1, ds', some msg⟩
            else
              let out := stepLoopGo callFn include_sys_msg orig ds' (attempt+1) remaining
              ⟨out.calls + 1, out.ds, out.stepError⟩
          | (ds', _, _, none) => ⟨1, ds', none⟩

/-- One step's retry loop with `max_retries` attempts. -/
def stepLoop (callFn : Nat → CallOutcome) (include_sys_msg : Bool)
    (orig : String) (maxRetries : Nat) (ds : DsState) : StepOut :=
  stepLoopGo callFn include_sys_msg orig ds 0 maxRetries

/-- Arguments of `EngineArguments` needed by the claims. -/
structure EngineArgsM where
  instructions : String
  system_prompt : String
  model_name : String
  max_retries : Nat
  sys_msg : Bool

/-- Engine state after `DataEngine.__init__`. -/
structure DataEngineM where
  model_name : String
  original_system_prompt : String
  generation_system_prompt : String
  max_retries : Nat
  sys_msg : Bool

/-- Model of `DataEngine.__init__` (engine.py lines 61-88), parameterized by
the `ENGINE_JSON_INSTRUCTIONS` constant text: the original system prompt is
stored undecorated; the generation prompt is the decorated concatenation. -/
def engineInit (jsonInstructions : String) (a : EngineArgsM) :
    Except String DataEngineM :=
  if a.model_name.data = [] ∨ pyStripList a.model_name.data = [] then
    .error "model_name must be a non-empty string in EngineArguments"
  else
    .ok { model_name := pyStrip a.model_name
          original_system_prompt := a.system_prompt
          generation_system_prompt := jsonInstructions ++ a.system_prompt
          max_retries := a.max_retries
          sys_msg := a.sys_msg }

/-- Effective model name at the top of `create_data` (engine.py line 147):
a truthy argument is stripped and wins, otherwise the engine's stored
name is kept. -/
def effectiveModel (selfModel : String) (model_name : Option String) : String :=
  match model_name with
  | some m => if m.data = [] then selfModel else pyStrip m
  | none => selfModel

/-- Inner prompt loop of one step (engine.py lines 184-198): one slot per
batch index; with tree paths bound, the slot takes the path at
`start_idx + i` and the loop breaks as soon as that index runs off the end;
a falsy (absent or empty) path list leaves every slot topic-less. -/
def batchLoop (drawn : Option (List (List String))) :
    Nat → Nat → List (Option (List String))
  | _, 0 => []
  | idx, rem+1 =>
    match drawn with
    | some ps =>
      if ps.isEmpty then none :: batchLoop drawn (idx+1) rem
      else if h : idx < ps.length then
        some (ps.get ⟨idx, h⟩) :: batchLoop drawn (idx+1) rem
      else []
    | none => none :: batchLoop drawn (idx+1) rem

/-- Ceiling division, modelling `math.ceil(a / b)` for the integer
magnitudes reachable here. -/
def mathCeilDiv (a b : Nat) : Nat := (a + b - 1) / b

/-- Sequential execution of the per-step retry loops, threading the dataset
state and a global count of completion calls; collects each step's recorded
error slot. -/
def runSteps (callFn : Nat → CallOutcome) (include_sys_msg : Bool)
    (orig : String) (maxRetries : Nat) :
    Nat → Nat → DsState → DsState × Nat × List (Option String)
  | 0, calls, ds => (ds, calls, [])
  | r+1, calls, ds =>
    let out := stepLoop (fun k => callFn (calls + k)) include_sys_msg orig maxRetries ds
    let rest := runSteps callFn include_sys_msg orig maxRetries r (calls + out.calls) out.ds
    (rest.1, rest.2.1, out.stepError :: rest.2.2)

/-- Result of a completed `create_data` run. -/
structure RunOutcome where
  drawn : Option (List (List String))
  batches : List (List (Option (List String)))
  finalDs : DsState
  stepErrors : List (Option String)

/-- Model of `DataEngine.create_data` (engine.py lines 134-276).  The random
draw is an oracle `sampleFn` (its `random.sample` contract is a hypothesis of
the theorems), the completion backend is the oracle `callFn`.  The second
component counts completion calls issued, so the fail-fast claims can state
that errors happen before any network call. -/
def create_data (selfModel : String) (num_steps : Option Nat)
    (batch_size : Nat) (topic_tree : Option (List (List String)))
    (model_name : Option String)
    (sampleFn : List (List String) → Nat → List (List String))
    (callFn : Nat → CallOutcome) (include_sys_msg : Bool) (orig : String)
    (maxRetries : Nat) : Except String RunOutcome × Nat :=
  match num_steps with
  | none => (.error "num_steps must be specified", 0)
  | some n =>
    let m := effectiveModel selfModel model_name
    if m.data = [] then (.error "No valid model_name provided", 0)
    else
      match topic_tree with
      | some tree_paths =>
        let total_paths := tree_paths.length
        let required_samples := n * batch_size
        if total_paths < required_samples then
          (.error ("Required samples (" ++ toString required_samples ++
            ") exceeds available tree paths (" ++ toString total_paths ++ ")"), 0)
        else if batch_size = 0 then
          (.error "ZeroDivisionError: division by zero", 0)
        else
          let drawn := sampleFn tree_paths required_samples
          let nSteps := mathCeilDiv drawn.length batch_size
          let batches := (List.range nSteps).map
            (fun step => batchLoop (some drawn) (step * batch_size) batch_size)
          let res := runSteps callFn include_sys_msg orig maxRetries nSteps 0 ⟨[], []⟩
          (.ok ⟨some drawn, batches, res.1, res.2.2⟩, res.2.1)
      | none =>
        let batches := (List.range n).map
          (fun step => batchLoop none (step * batch_size) batch_size)
        let res := runSteps callFn include_sys_msg orig maxRetries n 0 ⟨[], []⟩
        (.ok ⟨none, batches, res.1, res.2.2⟩, res.2.1)

/-- Unfolding lemma for one iteration of the step retry loop. -/
theorem stepLoopGo_succ (callFn : Nat → CallOutcome) (inc : Bool) (orig : String)
    (ds : DsState) (attempt r : Nat) :
    stepLoopGo callFn inc orig ds attempt (r+1) =
      match callFn attempt with
      | .raise msg =>
        if r = 0 then ⟨1, ds, some msg⟩
        else
          let out := stepLoopGo callFn inc orig ds (attempt+1) r
          ⟨out.calls + 1, out.ds, out.stepError⟩
      | .ok parsed =>
        match collectSamplesGo inc orig [] 0 parsed with
        | (_, _, some msg) =>
          if r = 0 then ⟨1, ds, some msg⟩
          else
            let out := stepLoopGo callFn inc orig ds (attempt+1) r
            ⟨out.calls + 1, out.ds, out.stepError⟩
        | (samples, _, none) =>
          if samples.isEmpty then
            let out := stepLoopGo callFn inc orig ds (attempt+1) r
            ⟨out.calls + 1, out.ds, out.stepError⟩
          else
            match add_samples ds samples with
            | (ds', _, _, some msg) =>
              if r = 0 then ⟨1, ds', some msg⟩
              else
                let out := stepLoopGo callFn inc orig ds' (attempt+1) r
                ⟨out.calls + 1, out.ds, out.stepError⟩
            | (ds', _, _, none) => ⟨1, ds', none⟩ := by
  conv_lhs => unfold stepLoopGo

/-- An attempt that cannot add samples: the call raised, or it returned but
either the response-processing raised or no response parsed. -/
def attemptYieldsNoSamples (callFn : Nat → CallOutcome) (inc : Bool)
    (orig : String) (j : Nat) : Prop :=
  (∃ msg, callFn j = .raise msg) ∨
  (∃ parsed, callFn j = .ok parsed ∧
    ((collectSamplesGo inc orig [] 0 parsed).2.2 ≠ none ∨
     (collectSamplesGo inc orig [] 0 parsed).1 = []))

/-- Error the loop records when its final executed attempt is `j`. -/
def lastAttemptError (callFn : Nat → CallOutcome) (inc : Bool)
    (orig : String) (j : Nat) : Option String :=
  match callFn j with
  | .raise msg => some msg
  | .ok parsed => (collectSamplesGo inc orig [] 0 parsed).2.2


theorem stepLoopGo_all_bad (callFn : Nat → CallOutcome) (inc : Bool) (orig : String) :
    ∀ (rem attempt : Nat) (ds : DsState),
      (∀ j, attempt ≤ j → j < attempt + rem →
        attemptYieldsNoSamples callFn inc orig j) →
      (stepLoopGo callFn inc orig ds attempt rem).calls = rem ∧
      (stepLoopGo callFn inc orig ds attempt rem).ds = ds ∧
      (stepLoopGo callFn inc orig ds attempt rem).stepError =
        (if rem = 0 then none
         else lastAttemptError callFn inc orig (attempt + rem - 1)) := by
  intro rem
  induction rem with
  | zero => intro attempt ds _; exact ⟨rfl, rfl, rfl⟩
  | succ r ih =>
    intro attempt ds h
    have hbad := h attempt (le_refl _) (by omega)
    obtain ⟨hc1, hc2, hc3⟩ := ih (attempt + 1) ds (fun j h1 h2 => h j (by omega) (by omega))
    rcases hbad with ⟨msg, hmsg⟩ | ⟨parsed, hp, hcase⟩
    · by_cases hr : r = 0
      · subst hr
        rw [stepLoopGo_succ]
        simp [hmsg, lastAttemptError]
      · rw [stepLoopGo_succ]
        simp only [hmsg]
        rw [if_neg hr]
        refine ⟨by simp [hc1], by simp [hc2], ?_⟩
        simp only []
        rw [hc3, if_neg hr, if_neg (by omega : ¬(r + 1 = 0))]
        congr 1
        omega
    · rcases hc : collectSamplesGo inc orig [] 0 parsed with ⟨cs, pf0, ce⟩
      rw [hc] at hcase
      simp only at hcase
      cases ce with
      | some m =>
        by_cases hr : r = 0
        · subst hr
          rw [stepLoopGo_succ]
          simp [hp, hc, lastAttemptError]
        · rw [stepLoopGo_succ]
          simp only [hp, hc]
          rw [if_neg hr]
          refine ⟨by simp [hc1], by simp [hc2], ?_⟩
          simp only []
          rw [hc3, if_neg hr, if_neg (by omega : ¬(r + 1 = 0))]
          congr 1
          omega
      | none =>
        have hcs : cs = [] := by
          rcases hcase with h1 | h1
          · exact absurd rfl h1
          · exact h1
        subst hcs
        rw [stepLoopGo_succ]
        simp only [hp, hc, List.isEmpty_nil, if_true]
        refine ⟨by simp [hc1], by simp [hc2], ?_⟩
        rw [hc3]
        by_cases hr : r = 0
        · subst hr
          simp [lastAttemptError, hp, hc]
        · rw [if_neg hr, if_neg (by omega : ¬(r + 1 = 0))]
          congr 1
          omega

theorem stepLoopGo_good (callFn : Nat → CallOutcome) (inc : Bool) (orig : String) :
    ∀ (k attempt rem : Nat) (ds : DsState) (parsed : List (Option Json))
      (samples : List Json) (pf : Nat) (ds' : DsState) (failed : List Json)
      (descs : List String),
      k < rem →
      (∀ j, attempt ≤ j → j < attempt + k →
        attemptYieldsNoSamples callFn inc orig j) →
      callFn (attempt + k) = .ok parsed →
      collectSamplesGo inc orig [] 0 parsed = (samples, pf, none) →
      samples ≠ [] →
      add_samples ds samples = (ds', failed, descs, none) →
      stepLoopGo callFn inc orig ds attempt rem = ⟨k + 1, ds', none⟩ := by
  intro k
  induction k with
  | zero =>
    intro attempt rem ds parsed samples pf ds' failed descs hlt hbad hcall hcoll hne hadd
    obtain ⟨r, rfl⟩ := Nat.exists_eq_succ_of_ne_zero (Nat.pos_iff_ne_zero.mp hlt)
    rw [Nat.add_zero] at hcall
    rw [stepLoopGo_succ]
    cases samples with
    | nil => exact absurd rfl hne
    | cons a t => simp [hcall, hcoll, hadd]
  | succ k ih =>
    intro attempt rem ds parsed samples pf ds' failed descs hlt hbad hcall hcoll hne hadd
    obtain ⟨r, rfl⟩ := Nat.exists_eq_succ_of_ne_zero (by omega : rem ≠ 0)
    have hr : r ≠ 0 := by omega
    have hrec := ih (attempt + 1) r ds parsed samples pf ds' failed descs (by omega)
      (fun j h1 h2 => hbad j (by omega) (by omega))
      (by rw [show attempt + 1 + k = attempt + (k + 1) by omega]; exact hcall)
      hcoll hne hadd
    have hbad0 := hbad attempt (le_refl _) (by omega)
    rw [stepLoopGo_succ]
    rcases hbad0 with ⟨msg, hmsg⟩ | ⟨parsed0, hp, hcase⟩
    · simp [hmsg, hr, hrec]
    · rcases hc : collectSamplesGo inc orig [] 0 parsed0 with ⟨cs, pf0, ce⟩
      rw [hc] at hcase
      simp only at hcase
      cases ce with
      | some m => simp [hp, hc, hr, hrec]
      | none =>
        have hcs : cs = [] := by
          rcases hcase with h1 | h1
          · exact absurd rfl h1
          · exact h1
        subst hcs
        simp [hp, hc, hrec]

/-- C2 counterexample: a completion call that returns without raising but
whose single response fails to parse does NOT end the retry loop — with
three retries the loop issues three completion calls rather than the single
call the claim predicts. -/
theorem c2_counterexample :
    (fun (_ : Nat) => CallOutcome.ok [none]) 0 = CallOutcome.ok [none] ∧
    (stepLoop (fun _ => CallOutcome.ok [none]) false "" 3 ⟨[], []⟩).calls = 3 ∧
    (stepLoop (fun _ => CallOutcome.ok [none]) false "" 3 ⟨[], []⟩).calls ≠ 1 :=
  ⟨rfl, rfl, by decide⟩

/-- C2 (amended): the retry loop of a step ends early exactly at the first
attempt whose completion call returns at least one parseable response (and
whose dataset add returns normally); a non-raising call with zero parseable
responses re-enters the loop just like a raising call; when every attempt
yields no samples the loop runs all `max_retries` calls, leaves the dataset
unchanged, and records a step-level failure message exactly when the final
attempt raised. -/
theorem c2_step_retry_protocol (callFn : Nat → CallOutcome) (inc : Bool)
    (orig : String) (maxR : Nat) (ds : DsState) :
    (∀ (k : Nat) (parsed : List (Option Json)) (samples : List Json) (pf : Nat)
      (ds' : DsState) (failed : List Json) (descs : List String),
      k < maxR →
      (∀ j < k, attemptYieldsNoSamples callFn inc orig j) →
      callFn k = .ok parsed →
      collectSamplesGo inc orig [] 0 parsed = (samples, pf, none) →
      samples ≠ [] →
      add_samples ds samples = (ds', failed, descs, none) →
      stepLoop callFn inc orig maxR ds = ⟨k + 1, ds', none⟩) ∧
    ((∀ j < maxR, attemptYieldsNoSamples callFn inc orig j) →
      (stepLoop callFn inc orig maxR ds).calls = maxR ∧
      (stepLoop callFn inc orig maxR ds).ds = ds ∧
      (stepLoop callFn inc orig maxR ds).stepError =
        (if maxR = 0 then none
         else lastAttemptError callFn inc orig (maxR - 1))) := by
  constructor
  · intro k parsed samples pf ds' failed descs hlt hbad hcall hcoll hne hadd
    exact stepLoopGo_good callFn inc orig k 0 maxR ds parsed samples pf ds' failed descs
      hlt (fun j h1 h2 => hbad j (by omega)) (by simpa using hcall) hcoll hne hadd
  · intro hbad
    have h := stepLoopGo_all_bad callFn inc orig maxR 0 ds
      (fun j h1 h2 => hbad j (by omega))
    simpa [stepLoop] using h

/-- Witness for C2: the loop exits at the second attempt after a raising
first attempt (the dataset then holds the one parsed sample), and with two
raising attempts it runs both calls and records the last message. -/
theorem c2_step_retry_protocol_witness :
    stepLoop
      (fun j => if j = 0 then CallOutcome.raise "boom"
                else CallOutcome.ok [some (Json.obj [("messages", Json.arr [])])])
      false "" 3 ⟨[], []⟩ =
      ⟨2, ⟨[Json.obj [("messages", Json.arr [])]], []⟩, none⟩ ∧
    (stepLoop (fun _ => CallOutcome.raise "down") false "" 2 ⟨[], []⟩).stepError =
      some "down" := by
  constructor
  · exact (c2_step_retry_protocol
      (fun j => if j = 0 then CallOutcome.raise "boom"
                else CallOutcome.ok [some (Json.obj [("messages", Json.arr [])])])
      false "" 3 ⟨[], []⟩).1 1 [some (Json.obj [("messages", Json.arr [])])]
      [Json.obj [("messages", Json.arr [])]] 0
      ⟨[Json.obj [("messages", Json.arr [])]], []⟩ [] []
      (by omega)
      (fun j hj => by
        have hj0 : j = 0 := by omega
        subst hj0
        exact Or.inl ⟨"boom", rfl⟩)
      rfl rfl (by simp) rfl
  · have h := (c2_step_retry_protocol (fun _ => CallOutcome.raise "down")
      false "" 2 ⟨[], []⟩).2
      (fun j hj => Or.inl ⟨"down", rfl⟩)
    simpa [lastAttemptError] using h.2.2

/-- Number of entries in a sample's "messages" list (0 when absent). -/
def messageCount (j : Json) : Nat :=
  match j with
  | .obj kvs =>
    match lookupKey kvs "messages" with
    | some (.arr ms) => ms.length
    | _ => 0
  | _ => 0

/-- Parsed sample that already carries a system-role message. -/
def c3parsed : Json :=
  Json.obj [("messages", Json.arr
    [Json.obj [("role", Json.str "system"), ("content", Json.str "existing")],
     Json.obj [("role", Json.str "user"), ("content", Json.str "hi")]])]

/-- C3 counterexample: with system-message inclusion enabled, a parsed
sample that already contains a system-role message is NOT left unchanged —
the engine prepends a second system message anyway, growing the message
list from 2 to 3. -/
theorem c3_counterexample :
    insertSysMessage true "orig prompt" c3parsed =
      .ok (Json.obj [("messages", Json.arr
        [sysMessage "orig prompt",
         Json.obj [("role", Json.str "system"), ("content", Json.str "existing")],
         Json.obj [("role", Json.str "user"), ("content", Json.str "hi")]])]) ∧
    messageCount c3parsed = 2 ∧
    messageCount (Json.obj [("messages", Json.arr
      [sysMessage "orig prompt",
       Json.obj [("role", Json.str "system"), ("content", Json.str "existing")],
       Json.obj [("role", Json.str "user"), ("content", Json.str "hi")]])]) = 3 ∧
    Json.obj [("messages", Json.arr
      [sysMessage "orig prompt",
       Json.obj [("role", Json.str "system"), ("content", Json.str "existing")],
       Json.obj [("role", Json.str "user"), ("content", Json.str "hi")]])] ≠ c3parsed := by
  refine ⟨rfl, rfl, rfl, ?_⟩
  intro h
  have h3 : (3 : Nat) = 2 := congrArg messageCount h
  omega

/-- C3 (amended): with inclusion enabled and a "messages" list present, a
system message carrying the engine's original (undecorated) system prompt
is unconditionally inserted at position 0 — also when a system message is
already there; a parsed object without a "messages" key is unchanged; with
inclusion disabled everything is unchanged; the engine stores the original
prompt undecorated while the generation prompt is the decorated one. -/
theorem c3_sys_message_insertion (orig : String)
    (kvs kvs2 : List (String × Json)) (ms : List Json) (j : Json)
    (ji : String) (a : EngineArgsM) (e : DataEngineM)
    (hm : lookupKey kvs "messages" = some (Json.arr ms))
    (h2 : ∀ kv ∈ kvs2, kv.1 ≠ "messages")
    (hinit : engineInit ji a = .ok e) :
    insertSysMessage true orig (Json.obj kvs) =
      .ok (Json.obj (dictInsert kvs "messages"
        (Json.arr (sysMessage orig :: ms)))) ∧
    insertSysMessage true orig (Json.obj kvs2) = .ok (Json.obj kvs2) ∧
    insertSysMessage false orig j = .ok j ∧
    e.original_system_prompt = a.system_prompt ∧
    e.generation_system_prompt = ji ++ a.system_prompt := by
  have he : e.original_system_prompt = a.system_prompt ∧
      e.generation_system_prompt = ji ++ a.system_prompt := by
    unfold engineInit at hinit
    split at hinit
    · exact absurd hinit (by simp)
    · have hinj := Except.ok.inj hinit
      rw [← hinj]
      exact ⟨rfl, rfl⟩
  refine ⟨?_, ?_, rfl, he.1, he.2⟩
  · unfold insertSysMessage
    simp [pyContains, lookupKey_any kvs "messages" _ hm, hm]
  · unfold insertSysMessage
    have hany : kvs2.any (fun kv => kv.1 = "messages") = false := by
      rw [List.any_eq_false]
      intro kv hkv
      simpa using h2 kv hkv
    simp [pyContains, hany]

/-- Witness for C3 (amended) at a concrete engine and concrete samples. -/
theorem c3_sys_message_insertion_witness :
    insertSysMessage true "P" (Json.obj [("messages", Json.arr [])]) =
      .ok (Json.obj [("messages", Json.arr [sysMessage "P"])]) ∧
    insertSysMessage true "P" (Json.obj [("other", Json.null)]) =
      .ok (Json.obj [("other", Json.null)]) ∧
    insertSysMessage false "P" (Json.num 5) = .ok (Json.num 5) ∧
    (DataEngineM.mk "model" "SP" ("JI " ++ "SP") 3 true).original_system_prompt = "SP" ∧
    (DataEngineM.mk "model" "SP" ("JI " ++ "SP") 3 true).generation_system_prompt =
      "JI " ++ "SP" := by
  exact c3_sys_message_insertion "P" [("messages", Json.arr [])]
    [("other", Json.null)] [] (Json.num 5) "JI "
    ⟨"instr", "SP", "model", 3, true⟩
    (DataEngineM.mk "model" "SP" ("JI " ++ "SP") 3 true)
    rfl
    (by
      intro kv hkv
      have := List.mem_singleton.mp hkv
      subst this
      decide)
    rfl

/-- C4: `create_data` fails fast, before issuing any completion call (the
call counter is 0): a missing `num_steps` raises "num_steps must be
specified"; an empty effective model identifier raises; a topic tree with
`num_steps * batch_size` exceeding the path count raises the explicit
over-capacity error. -/
theorem c4_create_data_fail_fast (selfModel : String) (n batch_size : Nat)
    (tree : List (List String)) (tt : Option (List (List String)))
    (model_name : Option String)
    (sampleFn : List (List String) → Nat → List (List String))
    (callFn : Nat → CallOutcome) (inc : Bool) (orig : String) (maxR : Nat) :
    create_data selfModel none batch_size tt model_name sampleFn callFn inc orig maxR =
      (.error "num_steps must be specified", 0) ∧
    ((effectiveModel selfModel model_name).data = [] →
      create_data selfModel (some n) batch_size tt model_name sampleFn callFn inc orig maxR =
        (.error "No valid model_name provided", 0)) ∧
    ((effectiveModel selfModel model_name).data ≠ [] →
      tree.length < n * batch_size →
      create_data selfModel (some n) batch_size (some tree) model_name sampleFn callFn
          inc orig maxR =
        (.error ("Required samples (" ++ toString (n * batch_size) ++
          ") exceeds available tree paths (" ++ toString tree.length ++ ")"), 0)) := by
  refine ⟨rfl, ?_, ?_⟩
  · intro h
    unfold create_data
    simp only []
    rw [if_pos h]
  · intro h hlt
    unfold create_data
    simp only []
    rw [if_neg h]
    rw [if_pos hlt]

/-- Witness for C4 at concrete inputs for each of the three error paths. -/
theorem c4_create_data_fail_fast_witness :
    create_data "m" none 10 none none (fun l _ => l) (fun _ => CallOutcome.ok [])
      false "" 3 = (.error "num_steps must be specified", 0) ∧
    create_data "m" (some 1) 10 none (some "  ") (fun l _ => l)
      (fun _ => CallOutcome.ok []) false "" 3 =
      (.error "No valid model_name provided", 0) ∧
    create_data "m" (some 2) 3 (some [["a"]]) none (fun l _ => l)
      (fun _ => CallOutcome.ok []) false "" 3 =
      (.error "Required samples (6) exceeds available tree paths (1)", 0) := by
  refine ⟨?_, ?_, ?_⟩
  · exact (c4_create_data_fail_fast "m" 0 10 [] none none (fun l _ => l)
      (fun _ => CallOutcome.ok []) false "" 3).1
  · exact (c4_create_data_fail_fast "m" 1 10 [] none (some "  ") (fun l _ => l)
      (fun _ => CallOutcome.ok []) false "" 3).2.1 (by decide)
  · exact (c4_create_data_fail_fast "m" 2 3 [["a"]] none none (fun l _ => l)
      (fun _ => CallOutcome.ok []) false "" 3).2.2 (by decide) (by decide)

theorem mathCeilDiv_mul (n b : Nat) (hb : b ≠ 0) : mathCeilDiv (n * b) b = n := by
  unfold mathCeilDiv
  obtain ⟨b', rfl⟩ := Nat.exists_eq_succ_of_ne_zero hb
  have harg : n * (b' + 1) + (b' + 1) - 1 = (b' + 1) * n + b' := by
    have : n * (b' + 1) = (b' + 1) * n := Nat.mul_comm _ _
    omega
  rw [harg, Nat.mul_add_div (by omega)]
  rw [Nat.div_eq_of_lt (by omega : b' < b' + 1)]
  omega

theorem batchLoop_full (ps : List (List String)) (hne : ps ≠ []) :
    ∀ (rem idx : Nat), idx + rem ≤ ps.length →
      (batchLoop (some ps) idx rem).length = rem ∧
      ∀ p ∈ batchLoop (some ps) idx rem, p.isSome := by
  have hpe : ps.isEmpty = false := by
    cases ps with
    | nil => exact absurd rfl hne
    | cons a t => rfl
  intro rem
  induction rem with
  | zero =>
    intro idx _
    exact ⟨rfl, by intro p hp; exact absurd hp (by simp [batchLoop])⟩
  | succ r ih =>
    intro idx h
    have hidx : idx < ps.length := by omega
    obtain ⟨hl, hm⟩ := ih (idx + 1) (by omega)
    have hstep : batchLoop (some ps) idx (r + 1) =
        some (ps.get ⟨idx, hidx⟩) :: batchLoop (some ps) (idx + 1) r := by
      conv_lhs => unfold batchLoop
      simp [hpe, hidx]
    rw [hstep]
    refine ⟨by simp [hl], ?_⟩
    intro p hp
    rcases List.mem_cons.mp hp with h1 | h1
    · subst h1; rfl
    · exact hm p h1

/-- C9: in `create_data` with a topic tree, exactly `num_steps * batch_size`
paths are drawn, the recomputed step count `ceil(drawn / batch_size)` equals
the original `num_steps`, every one of the `num_steps` batches holds exactly
`batch_size` path-bound prompts (the early break on exhausted paths is never
reached), and the total number of prompts is exactly
`num_steps * batch_size`. -/
theorem c9_topic_tree_batching (selfModel : String) (n b maxR : Nat)
    (paths : List (List String)) (model_name : Option String)
    (sampleFn : List (List String) → Nat → List (List String))
    (callFn : Nat → CallOutcome) (inc : Bool) (orig : String)
    (hb : b ≠ 0) (hn : n ≠ 0)
    (hle : n * b ≤ paths.length)
    (hmodel : (effectiveModel selfModel model_name).data ≠ [])
    (hsample : (sampleFn paths (n * b)).length = n * b) :
    ∃ out : RunOutcome,
      (create_data selfModel (some n) b (some paths) model_name sampleFn callFn
          inc orig maxR).1 = .ok out ∧
      out.drawn = some (sampleFn paths (n * b)) ∧
      mathCeilDiv (sampleFn paths (n * b)).length b = n ∧
      out.batches.length = n ∧
      (∀ batch ∈ out.batches, batch.length = b ∧ ∀ p ∈ batch, p.isSome) ∧
      (out.batches.map List.length).sum = n * b := by
  have hns : mathCeilDiv (sampleFn paths (n * b)).length b = n := by
    rw [hsample]; exact mathCeilDiv_mul n b hb
  have hdne : sampleFn paths (n * b) ≠ [] := by
    intro hnil
    rw [hnil] at hsample
    simp at hsample
    rcases hsample with h1 | h1
    · exact hn h1
    · exact hb h1
  have hbatch : ∀ step < n,
      (batchLoop (some (sampleFn paths (n * b))) (step * b) b).length = b ∧
      ∀ p ∈ batchLoop (some (sampleFn paths (n * b))) (step * b) b, p.isSome := by
    intro step hstep
    apply batchLoop_full (sampleFn paths (n * b)) hdne b (step * b)
    rw [hsample]
    have hmul : (step + 1) * b ≤ n * b := Nat.mul_le_mul_right b (by omega)
    have : (step + 1) * b = step * b + b := Nat.succ_mul step b
    omega
  refine ⟨⟨some (sampleFn paths (n * b)),
    (List.range n).map (fun step => batchLoop (some (sampleFn paths (n * b))) (step * b) b),
    (runSteps callFn inc orig maxR n 0 ⟨[], []⟩).1,
    (runSteps callFn inc orig maxR n 0 ⟨[], []⟩).2.2⟩, ?_, rfl, hns, ?_, ?_, ?_⟩
  · unfold create_data
    simp only []
    rw [if_neg hmodel, if_neg (by omega : ¬(paths.length < n * b)), if_neg hb]
    simp only [hns]
  · simp
  · intro batch hbt
    rw [List.mem_map] at hbt
    obtain ⟨step, hstep, rfl⟩ := hbt
    exact hbatch step (List.mem_range.mp hstep)
  · rw [List.map_map]
    rw [list_sum_map_const _ b]
    · simp
    · intro step hstep
      exact (hbatch step (List.mem_range.mp hstep)).1

/-- Witness for C9: two steps of batch size two over four tree paths. -/
theorem c9_topic_tree_batching_witness :
    (create_data "m" (some 2) 2 (some [["a"], ["b"], ["c"], ["d"]]) none
      (fun l k => l.take k) (fun _ => CallOutcome.ok []) false "" 1).1 =
      Except.ok ⟨some [["a"], ["b"], ["c"], ["d"]],
        [[some ["a"], some ["b"]], [some ["c"], some ["d"]]],
        ⟨[], []⟩, [none, none]⟩ ∧
    ([[some (["a"] : List String), some ["b"]], [some ["c"], some ["d"]]].map
      List.length).sum = 2 * 2 := by
  obtain ⟨out, h1, h2, h3, h4, h5, h6⟩ := c9_topic_tree_batching "m" 2 2 1
    [["a"], ["b"], ["c"], ["d"]] none (fun l k => l.take k)
    (fun _ => CallOutcome.ok []) false "" (by decide) (by decide) (by decide)
    (by decide) (by decide)
  have hc : (create_data "m" (some 2) 2 (some [["a"], ["b"], ["c"], ["d"]]) none
      (fun l k => l.take k) (fun _ => CallOutcome.ok []) false "" 1).1 =
      Except.ok ⟨some [["a"], ["b"], ["c"], ["d"]],
        [[some ["a"], some ["b"]], [some ["c"], some ["d"]]],
        ⟨[], []⟩, [none, none]⟩ := rfl
  have hoc : out = ⟨some [["a"], ["b"], ["c"], ["d"]],
      [[some ["a"], some ["b"]], [some ["c"], some ["d"]]],
      ⟨[], []⟩, [none, none]⟩ := Except.ok.inj (h1.symm.trans hc)
  refine ⟨hc, ?_⟩
  have := h6
  rw [hoc] at this
  exact this

/-- Lowercase hex digit, as Python's json encoder emits in escapes. -/
def hexDigit (n : Nat) : Char :=
  if n < 10 then Char.ofNat (48 + n) else Char.ofNat (87 + n)

/-- Escaping of one character by `json.dumps` (default `ensure_ascii`):
quote, backslash and the five control shortcuts get two-character escapes,
other characters outside printable ASCII get a 6-character \-u escape
(astral characters would use surrogate pairs; no claim reaches them). -/
def escapeChar (c : Char) : List Char :=
  if c = dqChar then ['\\', dqChar]
  else if c = '\\' then ['\\', '\\']
  else if c = '\n' then ['\\', 'n']
  else if c = '\t' then ['\\', 't']
  else if c = '\r' then ['\\', 'r']
  else if c = Char.ofNat 8 then ['\\', 'b']
  else if c = Char.ofNat 12 then ['\\', 'f']
  else if 0x20 ≤ c.toNat ∧ c.toNat ≤ 0x7e then [c]
  else
    ['\\', 'u', hexDigit (c.toNat / 4096 % 16), hexDigit (c.toNat / 256 % 16),
      hexDigit (c.toNat / 16 % 16), hexDigit (c.toNat % 16)]

/-- Serialization of one string literal by `json.dumps`. -/
def dumpString (s : String) : List Char :=
  dqChar :: (s.data.map escapeChar).flatten ++ [dqChar]

mutual

/-- Model of `json.dumps` with its default separators (", " and ": "). -/
def dumps : Json → List Char
  | .null => "null".data
  | .bool true => "true".data
  | .bool false => "false".data
  | .num n => (toString n).data
  | .str s => dumpString s
  | .arr xs => '[' :: dumpItems xs ++ [']']
  | .obj kvs => lbrace :: dumpMembers kvs ++ [rbrace]

/-- Array items joined by ", ". -/
def dumpItems : List Json → List Char
  | [] => []
  | [x] => dumps x
  | x :: y :: rest => dumps x ++ ',' :: ' ' :: dumpItems (y :: rest)

/-- Object members `"key": value` joined by ", ". -/
def dumpMembers : List (String × Json) → List Char
  | [] => []
  | [(k, v)] => dumpString k ++ ':' :: ' ' :: dumps v
  | (k, v) :: m :: rest =>
      dumpString k ++ ':' :: ' ' :: dumps v ++ ',' :: ' ' :: dumpMembers (m :: rest)

end

mutual

/-- Single pass of `re.sub(r"\s+", " ", s)`: a whitespace run becomes one
space. -/
def pysub : List Char → List Char
  | [] => []
  | c :: cs => if pyIsSpaceChar c then ' ' :: pysubSkip cs else c :: pysub cs

/-- Continuation of `pysub` inside a whitespace run. -/
def pysubSkip : List Char → List Char
  | [] => []
  | c :: cs => if pyIsSpaceChar c then pysubSkip cs else c :: pysub cs

end

/-- Python `str.split()` with an accumulator holding the reversed current
word. -/
def pywordsGo (acc : List Char) : List Char → List (List Char)
  | [] => if acc.isEmpty then [] else [acc.reverse]
  | c :: cs =>
    if pyIsSpaceChar c then
      (if acc.isEmpty then pywordsGo [] cs else acc.reverse :: pywordsGo [] cs)
    else pywordsGo (c :: acc) cs

/-- Python `" ".join(words)`. -/
def joinWords : List (List Char) → List Char
  | [] => []
  | [w] => w
  | w :: y :: rest => w ++ ' ' :: joinWords (y :: rest)

/-- Model of `Dataset.remove_linebreaks_and_spaces` (dataset.py lines
125-138): collapse whitespace runs, then split and re-join on single
spaces. -/
def remove_linebreaks_and_spaces (cs : List Char) : List Char :=
  joinWords (pywordsGo [] (pysub cs))

/-- One output line of `Dataset.save` (dataset.py lines 140-152). -/
def saveLine (sample : Json) : List Char :=
  remove_linebreaks_and_spaces (dumps sample)

/-- Model of `Dataset.save`: one whitespace-collapsed JSON line per sample,
in order. -/
def save (st : DsState) : List (List Char) :=
  st.samples.map saveLine

/-- JSON structural whitespace accepted between tokens by `json.loads`. -/
def jsonWs (c : Char) : Bool :=
  c == ' ' || c == '\t' || c == '\n' || c == '\r'

/-- Skip leading JSON whitespace. -/
def skipWs : List Char → List Char
  | [] => []
  | c :: cs => if jsonWs c then skipWs cs else c :: cs

/-- Value of a hex digit, for \-u escapes. -/
def hexVal (c : Char) : Option Nat :=
  if '0' ≤ c ∧ c ≤ '9' then some (c.toNat - 48)
  else if 'a' ≤ c ∧ c ≤ 'f' then some (c.toNat - 87)
  else if 'A' ≤ c ∧ c ≤ 'F' then some (c.toNat - 55)
  else none

/-- Short escapes accepted after a backslash in a JSON string. -/
def unescape (e : Char) : Option Char :=
  if e = dqChar then some dqChar
  else if e = '\\' then some '\\'
  else if e = '/' then some '/'
  else if e = 'b' then some (Char.ofNat 8)
  else if e = 'f' then some (Char.ofNat 12)
  else if e = 'n' then some '\n'
  else if e = 'r' then some '\r'
  else if e = 't' then some '\t'
  else none

/-- Body of a JSON string literal after the opening quote: returns the
decoded characters and the input after the closing quote. -/
def parseStringBody : List Char → Option (List Char × List Char)
  | [] => none
  | c :: rest =>
    if c = dqChar then some ([], rest)
    else if c = '\\' then
      match rest with
      | [] => none
      | e :: rest2 =>
        if e = 'u' then
          match rest2 with
          | h1 :: h2 :: h3 :: h4 :: rest3 =>
            match hexVal h1, hexVal h2, hexVal h3, hexVal h4 with
            | some a, some b, some c2, some d =>
              (parseStringBody rest3).map (fun r =>
                (Char.ofNat (4096 * a + 256 * b + 16 * c2 + d) :: r.1, r.2))
            | _, _, _, _ => none
          | _ => none
        else
          match unescape e with
          | some u => (parseStringBody rest2).map (fun r => (u :: r.1, r.2))
          | none => none
    else (parseStringBody rest).map (fun r => (c :: r.1, r.2))

/-- Digits of a decimal number. -/
def digitsToNat (acc : Nat) : List Char → Nat × List Char
  | [] => (acc, [])
  | c :: cs =>
    if c.isDigit then digitsToNat (acc * 10 + (c.toNat - 48)) cs else (acc, c :: cs)

/-- Whether the remaining input continues a number with a fractional or
exponent part (such numbers are outside this integer-only model, so the
parse is rejected rather than mis-read). -/
def isFloatCont : List Char → Bool
  | c :: _ => c == '.' || c == 'e' || c == 'E'
  | [] => false

/-- Integer literal parser. -/
def parseNumber (cs : List Char) : Option (Json × List Char) :=
  match cs with
  | '-' :: rest =>
    match rest with
    | c :: _ =>
      if c.isDigit then
        let r := digitsToNat 0 rest
        if isFloatCont r.2 then none else some (.num (-(r.1 : Int)), r.2)
      else none
    | [] => none
  | c :: _ =>
    if c.isDigit then
      let r := digitsToNat 0 cs
      if isFloatCont r.2 then none else some (.num ((r.1 : Int)), r.2)
    else none
  | [] => none

mutual

/-- Recursive-descent model of `json.loads` (value parser), with fuel. -/
def parseVal : Nat → List Char → Option (Json × List Char)
  | 0, _ => none
  | fuel+1, cs =>
    match skipWs cs with
    | [] => none
    | c :: rest =>
      if c = dqChar then
        (parseStringBody rest).map (fun r => (.str (String.mk r.1), r.2))
      else if c = lbrace then
        match skipWs rest with
        | c2 :: r2 =>
          if c2 = rbrace then some (.obj [], r2)
          else parseMembers fuel (c2 :: r2) []
        | [] => none
      else if c = '[' then
        match skipWs rest with
        | c2 :: r2 =>
          if c2 = ']' then some (.arr [], r2)
          else parseElems fuel (c2 :: r2) []
        | [] => none
      else
        match c :: rest with
        | 'n' :: 'u' :: 'l' :: 'l' :: r => some (.null, r)
        | 't' :: 'r' :: 'u' :: 'e' :: r => some (.bool true, r)
        | 'f' :: 'a' :: 'l' :: 's' :: 'e' :: r => some (.bool false, r)
        | other => parseNumber other

/-- Array elements after the opening bracket (non-empty case). -/
def parseElems : Nat → List Char → List Json → Option (Json × List Char)
  | 0, _, _ => none
  | fuel+1, cs, acc =>
    match parseVal fuel cs with
    | none => none
    | some (v, rest) =>
      match skipWs rest with
      | c :: r2 =>
        if c = ',' then parseElems fuel r2 (acc ++ [v])
        else if c = ']' then some (.arr (acc ++ [v]), r2)
        else none
      | [] => none

/-- Object members after the opening brace (non-empty case); duplicate keys
overwrite in place, as Python dicts do. -/
def parseMembers : Nat → List Char → List (String × Json) →
    Option (Json × List Char)
  | 0, _, _ => none
  | fuel+1, cs, acc =>
    match skipWs cs with
    | c :: rest =>
      if c = dqChar then
        match parseStringBody rest with
        | none => none
        | some (k, r1) =>
          match skipWs r1 with
          | c2 :: r2 =>
            if c2 = ':' then
              match parseVal fuel r2 with
              | none => none
              | some (v, r3) =>
                match skipWs r3 with
                | c3 :: r4 =>
                  if c3 = ',' then
                    parseMembers fuel r4 (dictInsert acc (String.mk k) v)
                  else if c3 = rbrace then
                    some (.obj (dictInsert acc (String.mk k) v), r4)
                  else none
                | [] => none
            else none
          | [] => none
      else none
    | [] => none

end

/-- Model of `json.loads`: parse one value, allow trailing whitespace
only. -/
def jsonLoads (cs : List Char) : Option Json :=
  match parseVal (cs.length + 1) cs with
  | some (v, rest) => if (skipWs rest).isEmpty then some v else none
  | none => none

/-- Loop of `Dataset.from_jsonl` (dataset.py lines 38-57): parse each line
(a parse failure raises and is reported in the error slot), validate, and
divert invalid samples. -/
def from_jsonlGo (st : DsState) : List (List Char) → DsState × Option String
  | [] => (st, none)
  | line :: rest =>
    match jsonLoads line with
    | none => (st, some "json.decoder.JSONDecodeError")
    | some sample =>
      match validate_sample sample with
      | .ok true => from_jsonlGo { st with samples := st.samples ++ [sample] } rest
      | .ok false =>
          from_jsonlGo { st with failed_samples := st.failed_samples ++ [sample] } rest
      | .error m => (st, some m)

/-- Model of `Dataset.from_jsonl`. -/
def from_jsonl (lines : List (List Char)) : DsState × Option String :=
  from_jsonlGo ⟨[], []⟩ lines

/-- Escapes accepted inside a Python string literal (the fragment
`ast.literal_eval` needs here). -/
def unescapePy (e : Char) : Option Char :=
  if e = sqChar then some sqChar
  else if e = dqChar then some dqChar
  else if e = '\\' then some '\\'
  else if e = 'n' then some '\n'
  else if e = 't' then some '\t'
  else if e = 'r' then some '\r'
  else none

/-- Body of a Python string literal with closing quote `q`. -/
def parseLitStringBody (q : Char) : List Char → Option (List Char × List Char)
  | [] => none
  | c :: rest =>
    if c = q then some ([], rest)
    else if c = '\\' then
      match rest with
      | [] => none
      | e :: rest2 =>
        match unescapePy e with
        | some u => (parseLitStringBody q rest2).map (fun r => (u :: r.1, r.2))
        | none => none
    else (parseLitStringBody q rest).map (fun r => (c :: r.1, r.2))

mutual

/-- Model of `ast.literal_eval` on the literal fragment reachable from
`extract_list`: single- or double-quoted strings, integers, booleans,
`None`, and (nested) list and dict displays. -/
def parseLitVal : Nat → List Char → Option (Json × List Char)
  | 0, _ => none
  | fuel+1, cs =>
    match skipWs cs with
    | [] => none
    | c :: rest =>
      if c = dqChar then
        (parseLitStringBody dqChar rest).map (fun r => (.str (String.mk r.1), r.2))
      else if c = sqChar then
        (parseLitStringBody sqChar rest).map (fun r => (.str (String.mk r.1), r.2))
      else if c = lbrace then
        match skipWs rest with
        | c2 :: r2 =>
          if c2 = rbrace then some (.obj [], r2)
          else parseLitMembers fuel (c2 :: r2) []
        | [] => none
      else if c = '[' then
        match skipWs rest with
        | c2 :: r2 =>
          if c2 = ']' then some (.arr [], r2)
          else parseLitElems fuel (c2 :: r2) []
        | [] => none
      else
        match c :: rest with
        | 'N' :: 'o' :: 'n' :: 'e' :: r => some (.null, r)
        | 'T' :: 'r' :: 'u' :: 'e' :: r => some (.bool true, r)
        | 'F' :: 'a' :: 'l' :: 's' :: 'e' :: r => some (.bool false, r)
        | other => parseNumber other

/-- List display elements. -/
def parseLitElems : Nat → List Char → List Json → Option (Json × List Char)
  | 0, _, _ => none
  | fuel+1, cs, acc =>
    match parseLitVal fuel cs with
    | none => none
    | some (v, rest) =>
      match skipWs rest with
      | c :: r2 =>
        if c = ',' then parseLitElems fuel r2 (acc ++ [v])
        else if c = ']' then some (.arr (acc ++ [v]), r2)
        else none
      | [] => none

/-- Dict display members (string keys only, which is all the call sites can
produce). -/
def parseLitMembers : Nat → List Char → List (String × Json) →
    Option (Json × List Char)
  | 0, _, _ => none
  | fuel+1, cs, acc =>
    match parseLitVal fuel cs with
    | none => none
    | some (kv, r1) =>
      match kv with
      | .str k =>
        match skipWs r1 with
        | c2 :: r2 =>
          if c2 = ':' then
            match parseLitVal fuel r2 with
            | none => none
            | some (v, r3) =>
              match skipWs r3 with
              | c3 :: r4 =>
                if c3 = ',' then parseLitMembers fuel r4 (dictInsert acc k v)
                else if c3 = rbrace then some (.obj (dictInsert acc k v), r4)
                else none
              | [] => none
          else none
        | [] => none
      | _ => none

end

/-- Whole-string `ast.literal_eval`. -/
def litLoads (cs : List Char) : Option Json :=
  match parseLitVal (cs.length + 1) cs with
  | some (v, rest) => if (skipWs rest).isEmpty then some v else none
  | none => none

/-- Python `\w` (ASCII fragment). -/
def pyIsWordChar (c : Char) : Bool :=
  c.isAlphanum || c == '_'

/-- Replacement text the source substitutes for an apostrophe between word
characters (the file literally contains this mojibake sequence). -/
def rsq : List Char := "â€™".data

/-- Model of `re.sub(r"(\w)'(\w)", r"\1â€™\2", s)`: non-overlapping
left-to-right replacement, resuming after each match. -/
def aposSub : List Char → List Char
  | [] => []
  | [c] => [c]
  | [c, d] => [c, d]
  | a :: q :: b :: rest =>
    if pyIsWordChar a && q == sqChar && pyIsWordChar b then
      a :: rsq ++ b :: aposSub rest
    else a :: aposSub (q :: b :: rest)

/-- Model of `safe_literal_eval` (utils.py lines 72-96): literal parse, and
on failure one retry after the apostrophe substitution. -/
def safe_literal_eval (cs : List Char) : Option Json :=
  match litLoads cs with
  | some v => some v
  | none => litLoads (aposSub cs)

/-- Suffix of the input starting at the first `[` (Python
`input_string.find("[")`, `None` when absent). -/
def findBracket : List Char → Option (List Char)
  | [] => none
  | c :: rest => if c = '[' then some (c :: rest) else findBracket rest

/-- Bracket-depth scan of `extract_list`: starting from the first `[`, take
characters until the counter returns to zero; `none` models the
for-else branch (no matching close bracket). -/
def balanceScan : Nat → List Char → Option (List Char)
  | _, [] => none
  | count, c :: rest =>
    let count' := if c = '[' then count + 1 else if c = ']' then count - 1 else count
    if count' = 0 then some [c]
    else (balanceScan count' rest).map (fun l => c :: l)

/-- Model of `extract_list` (utils.py lines 6-53): whole-string JSON parse
returned as-is on success; otherwise the first balanced bracketed substring
is literal-evaluated; every failure path yields the empty list and no
exception escapes (the function is total). -/
def extract_list (s : String) : Json :=
  match jsonLoads s.data with
  | some v => v
  | none =>
    match findBracket s.data with
    | none => Json.arr []
    | some sub =>
      match balanceScan 0 sub with
      | none => Json.arr []
      | some found =>
        match safe_literal_eval found with
        | some v => v
        | none => Json.arr []

/-- C5 counterexample: when the whole input parses as a JSON mapping,
`extract_list` returns the mapping itself, not its first list-valued entry
as the claim states. -/
theorem c5_counterexample :
    jsonLoads ("\x7b\"a\": [1, 2]\x7d".data) =
      some (Json.obj [("a", Json.arr [Json.num 1, Json.num 2])]) ∧
    extract_list "\x7b\"a\": [1, 2]\x7d" =
      Json.obj [("a", Json.arr [Json.num 1, Json.num 2])] ∧
    Json.obj [("a", Json.arr [Json.num 1, Json.num 2])] ≠
      Json.arr [Json.num 1, Json.num 2] :=
  ⟨rfl, rfl, fun h => Json.noConfusion h⟩

/-- C5 (amended): `extract_list` first parses the whole string as JSON and,
on success, returns the parsed value unchanged — a list as that list but
also a mapping as the mapping itself (the first-contained-list behavior
belongs to the sibling extractor in promptsmith); otherwise it extracts the
first balanced bracketed substring and literal-evaluates it; on every
failure path (no bracket, unmatched bracket, unparseable literal) it
returns the empty list, and the function is total, so no exception
escapes. -/
theorem c5_extract_list_behavior (s : String) (v w : Json)
    (sub found : List Char) :
    (jsonLoads s.data = some v → extract_list s = v) ∧
    (jsonLoads s.data = none → findBracket s.data = none →
      extract_list s = Json.arr []) ∧
    (jsonLoads s.data = none → findBracket s.data = some sub →
      balanceScan 0 sub = none → extract_list s = Json.arr []) ∧
    (jsonLoads s.data = none → findBracket s.data = some sub →
      balanceScan 0 sub = some found → safe_literal_eval found = some w →
      extract_list s = w) ∧
    (jsonLoads s.data = none → findBracket s.data = some sub →
      balanceScan 0 sub = some found → safe_literal_eval found = none →
      extract_list s = Json.arr []) ∧
    extract_list "[\"a\", \"b\"]" = Json.arr [Json.str "a", Json.str "b"] ∧
    extract_list ("here: [" ++ String.mk [sqChar] ++ "x" ++ String.mk [sqChar] ++
      ", " ++ String.mk [sqChar] ++ "y" ++ String.mk [sqChar] ++ "] done") =
      Json.arr [Json.str "x", Json.str "y"] := by
  refine ⟨?_, ?_, ?_, ?_, ?_, rfl, rfl⟩
  · intro h
    unfold extract_list
    rw [h]
  · intro h1 h2
    unfold extract_list
    rw [h1, h2]
  · intro h1 h2 h3
    unfold extract_list
    simp only [h1, h2, h3]
  · intro h1 h2 h3 h4
    unfold extract_list
    simp only [h1, h2, h3, h4]
  · intro h1 h2 h3 h4
    unfold extract_list
    simp only [h1, h2, h3, h4]

/-- Witness for C5 (amended), exercising every branch at concrete inputs. -/
theorem c5_extract_list_behavior_witness :
    extract_list "[\"a\", \"b\"]" = Json.arr [Json.str "a", Json.str "b"] ∧
    extract_list "no list here" = Json.arr [] ∧
    extract_list "take [ this" = Json.arr [] ∧
    extract_list ("here: [" ++ String.mk [sqChar] ++ "x" ++ String.mk [sqChar] ++
      ", " ++ String.mk [sqChar] ++ "y" ++ String.mk [sqChar] ++ "] done") =
      Json.arr [Json.str "x", Json.str "y"] ∧
    extract_list "[oops]" = Json.arr [] := by
  refine ⟨?_, ?_, ?_, ?_, ?_⟩
  · exact (c5_extract_list_behavior "[\"a\", \"b\"]"
      (Json.arr [Json.str "a", Json.str "b"]) Json.null [] []).1 rfl
  · exact (c5_extract_list_behavior "no list here" Json.null Json.null [] []).2.1
      rfl rfl
  · exact (c5_extract_list_behavior "take [ this" Json.null Json.null
      "[ this".data []).2.2.1 rfl rfl rfl
  · exact (c5_extract_list_behavior ("here: [" ++ String.mk [sqChar] ++ "x" ++
      String.mk [sqChar] ++ ", " ++ String.mk [sqChar] ++ "y" ++
      String.mk [sqChar] ++ "] done") Json.null
      (Json.arr [Json.str "x", Json.str "y"])
      (("[" ++ String.mk [sqChar] ++ "x" ++ String.mk [sqChar] ++ ", " ++
        String.mk [sqChar] ++ "y" ++ String.mk [sqChar] ++ "] done").data)
      (("[" ++ String.mk [sqChar] ++ "x" ++ String.mk [sqChar] ++ ", " ++
        String.mk [sqChar] ++ "y" ++ String.mk [sqChar] ++ "]").data)).2.2.2.1
      rfl rfl rfl rfl
  · exact (c5_extract_list_behavior "[oops]" Json.null Json.null
      "[oops]".data "[oops]".data).2.2.2.2.1 rfl rfl rfl rfl

/-- Boolean form of a non-raising validation verdict. -/
def validB (s : Json) : Bool :=
  match validate_sample s with
  | .ok true => true
  | _ => false

/-- Samples on which Python's `validate_sample` cannot raise: dicts whose
"messages" entry, when present, is a list of dicts. -/
def tameSample (s : Json) : Prop :=
  ∃ kvs, s = Json.obj kvs ∧
    ∀ v, lookupKey kvs "messages" = some v →
      ∃ ms, v = Json.arr ms ∧ ∀ m ∈ ms, ∃ mkvs, m = Json.obj mkvs

theorem any_lookupKey (kvs : List (String × Json)) (k : String)
    (h : kvs.any (fun kv => kv.1 = k) = true) : ∃ v, lookupKey kvs k = some v := by
  induction kvs with
  | nil => simp at h
  | cons a t ih =>
    by_cases hk : a.1 = k
    · exact ⟨a.2, by simp [lookupKey, hk]⟩
    · have h' : t.any (fun kv => kv.1 = k) = true := by
        rw [List.any_cons, decide_eq_false hk, Bool.false_or] at h
        exact h
      obtain ⟨v, hv⟩ := ih h'
      exact ⟨v, by simp [lookupKey, hk, hv]⟩

theorem validB_eq (a : Json) (b : Bool) (hb : validate_sample a = .ok b) :
    validB a = b := by
  cases b with
  | true => simp [validB, hb]
  | false => simp [validB, hb]

theorem validateMessage_obj_total (mkvs : List (String × Json)) :
    ∃ b, validateMessage (Json.obj mkvs) = .ok b := by
  by_cases hr : mkvs.any (fun kv => kv.1 = "role") = true
  · by_cases hc : mkvs.any (fun kv => kv.1 = "content") = true
    · obtain ⟨rv, hrv⟩ := any_lookupKey _ _ hr
      obtain ⟨cv, hcv⟩ := any_lookupKey _ _ hc
      by_cases hm : pyMemStrList rv ["user", "assistant", "system"] = true
      · cases cv with
        | str s0 =>
          exact ⟨true, by simp [validateMessage, pyContains, pyGet, hr, hc, hrv,
            hcv, hm, Bind.bind, Except.bind, Pure.pure, Except.pure]⟩
        | null =>
          exact ⟨false, by simp [validateMessage, pyContains, pyGet, hr, hc, hrv,
            hcv, hm, Bind.bind, Except.bind, Pure.pure, Except.pure]⟩
        | bool b0 =>
          exact ⟨false, by simp [validateMessage, pyContains, pyGet, hr, hc, hrv,
            hcv, hm, Bind.bind, Except.bind, Pure.pure, Except.pure]⟩
        | num n0 =>
          exact ⟨false, by simp [validateMessage, pyContains, pyGet, hr, hc, hrv,
            hcv, hm, Bind.bind, Except.bind, Pure.pure, Except.pure]⟩
        | arr xs0 =>
          exact ⟨false, by simp [validateMessage, pyContains, pyGet, hr, hc, hrv,
            hcv, hm, Bind.bind, Except.bind, Pure.pure, Except.pure]⟩
        | obj kvs0 =>
          exact ⟨false, by simp [validateMessage, pyContains, pyGet, hr, hc, hrv,
            hcv, hm, Bind.bind, Except.bind, Pure.pure, Except.pure]⟩
      · have hm' : pyMemStrList rv ["user", "assistant", "system"] = false :=
          Bool.not_eq_true _ |>.mp hm
        exact ⟨false, by simp [validateMessage, pyContains, pyGet, hr, hc, hrv,
          hm', Bind.bind, Except.bind, Pure.pure, Except.pure]⟩
    · have hc' : mkvs.any (fun kv => kv.1 = "content") = false :=
        Bool.not_eq_true _ |>.mp hc
      exact ⟨false, by simp [validateMessage, pyContains, hr, hc',
        Bind.bind, Except.bind, Pure.pure, Except.pure]⟩
  · have hr' : mkvs.any (fun kv => kv.1 = "role") = false :=
      Bool.not_eq_true _ |>.mp hr
    exact ⟨false, by simp [validateMessage, pyContains, hr',
      Bind.bind, Except.bind, Pure.pure, Except.pure]⟩

theorem validateMessages_total (ms : List Json)
    (h : ∀ m ∈ ms, ∃ mkvs, m = Json.obj mkvs) :
    ∃ b, validateMessages ms = .ok b := by
  induction ms with
  | nil => exact ⟨true, rfl⟩
  | cons m t ih =>
    obtain ⟨mkvs, rfl⟩ := h m (by simp)
    obtain ⟨b1, hb1⟩ := validateMessage_obj_total mkvs
    obtain ⟨b2, hb2⟩ := ih (fun x hx => h x (by simp [hx]))
    cases b1 with
    | true =>
      exact ⟨b2, by simp [validateMessages, hb1, hb2,
        Bind.bind, Except.bind, Pure.pure, Except.pure]⟩
    | false =>
      exact ⟨false, by simp [validateMessages, hb1,
        Bind.bind, Except.bind, Pure.pure, Except.pure]⟩

theorem validate_sample_total (s : Json) (h : tameSample s) :
    ∃ b, validate_sample s = .ok b := by
  obtain ⟨kvs, rfl, hmsgs⟩ := h
  by_cases ha : kvs.any (fun kv => kv.1 = "messages") = true
  · obtain ⟨v, hv⟩ := any_lookupKey _ _ ha
    obtain ⟨ms, rfl, hms⟩ := hmsgs v hv
    obtain ⟨b, hb⟩ := validateMessages_total ms hms
    exact ⟨b, by simp [validate_sample, pyContains, pyGet, pyIter, ha, hv, hb,
      Bind.bind, Except.bind, Pure.pure, Except.pure]⟩
  · have ha' : kvs.any (fun kv => kv.1 = "messages") = false :=
      Bool.not_eq_true _ |>.mp ha
    exact ⟨false, by simp [validate_sample, pyContains, ha',
      Bind.bind, Except.bind, Pure.pure, Except.pure]⟩

theorem add_samplesGo_spec :
    ∀ (l : List Json) (st : DsState) (failed : List Json) (descs : List String),
      (∀ s ∈ l, ∃ b, validate_sample s = .ok b) →
      add_samplesGo st failed descs l =
        (⟨st.samples ++ l.filter validB,
          st.failed_samples ++ l.filter (fun s => !validB s)⟩,
         failed ++ l.filter (fun s => !validB s),
         descs ++ (l.filter (fun s => !validB s)).map failureDescription,
         none) := by
  intro l
  induction l with
  | nil => intro st failed descs _; simp [add_samplesGo]
  | cons a t ih =>
    intro st failed descs h
    obtain ⟨b, hb⟩ := h a (by simp)
    have hv := validB_eq a b hb
    have hrest : ∀ s ∈ t, ∃ b, validate_sample s = .ok b :=
      fun s hs => h s (by simp [hs])
    unfold add_samplesGo
    rw [hb]
    cases b with
    | true =>
      have ht := ih { st with samples := st.samples ++ [a] } failed descs hrest
      simp [ht, List.filter_cons, hv]
    | false =>
      have ht := ih { st with failed_samples := st.failed_samples ++ [a] }
        (failed ++ [a]) (descs ++ [failureDescription a]) hrest
      simp [ht, List.filter_cons, hv]

theorem from_listGo_spec :
    ∀ (l : List Json) (st : DsState),
      (∀ s ∈ l, ∃ b, validate_sample s = .ok b) →
      from_listGo st l =
        (⟨st.samples ++ l.filter validB,
          st.failed_samples ++ l.filter (fun s => !validB s)⟩, none) := by
  intro l
  induction l with
  | nil => intro st _; simp [from_listGo]
  | cons a t ih =>
    intro st h
    obtain ⟨b, hb⟩ := h a (by simp)
    have hv := validB_eq a b hb
    have hrest : ∀ s ∈ t, ∃ b, validate_sample s = .ok b :=
      fun s hs => h s (by simp [hs])
    unfold from_listGo
    rw [hb]
    cases b with
    | true =>
      have ht := ih { st with samples := st.samples ++ [a] } hrest
      simp [ht, List.filter_cons, hv]
    | false =>
      have ht := ih { st with failed_samples := st.failed_samples ++ [a] } hrest
      simp [ht, List.filter_cons, hv]

theorem from_jsonlGo_spec :
    ∀ (lines : List (List Char)) (ps : List Json) (st : DsState),
      lines.map jsonLoads = ps.map some →
      (∀ s ∈ ps, ∃ b, validate_sample s = .ok b) →
      from_jsonlGo st lines =
        (⟨st.samples ++ ps.filter validB,
          st.failed_samples ++ ps.filter (fun s => !validB s)⟩, none) := by
  intro lines
  induction lines with
  | nil =>
    intro ps st hmap _
    have : ps = [] := by
      cases ps with
      | nil => rfl
      | cons p pt => simp at hmap
    subst this
    simp [from_jsonlGo]
  | cons line rest ih =>
    intro ps st hmap h
    cases ps with
    | nil => simp at hmap
    | cons p pt =>
      simp only [List.map_cons, List.cons.injEq] at hmap
      obtain ⟨hline, hrest⟩ := hmap
      obtain ⟨b, hb⟩ := h p (by simp)
      have hv := validB_eq p b hb
      have hrest2 : ∀ s ∈ pt, ∃ b, validate_sample s = .ok b :=
        fun s hs => h s (by simp [hs])
      unfold from_jsonlGo
      simp only [hline]
      rw [hb]
      cases b with
      | true =>
        have ht := ih pt { st with samples := st.samples ++ [p] } hrest hrest2
        simp [ht, List.filter_cons, hv]
      | false =>
        have ht := ih pt { st with failed_samples := st.failed_samples ++ [p] }
          hrest hrest2
        simp [ht, List.filter_cons, hv]

/-- C8 counterexample: `add_samples` on a sample whose "messages" value is
an integer raises a `TypeError` (Python iterates the value), instead of
diverting the invalid sample without raising. -/
theorem c8_counterexample :
    validate_sample (Json.obj [("messages", Json.num 5)]) =
      .error "TypeError: object is not iterable" ∧
    add_samples ⟨[], []⟩ [Json.obj [("messages", Json.num 5)]] =
      (⟨[], []⟩, [], [], some "TypeError: object is not iterable") :=
  ⟨rfl, rfl⟩

/-- C8 (amended): on samples whose "messages" entry (when present) is a
list of dicts, validation cannot raise, and every populating operation
(`add_samples`, `from_list`, `from_jsonl`) preserves the invariant that all
members of the validated collection pass `validate_sample`, keeps insertion
order (the valid samples in input order after the existing ones), diverts
invalid samples to the failed-samples side list with one failure
description each, and returns without raising; a sample whose "messages"
value is not iterable (e.g. an integer) instead makes `add_samples`
raise. -/
theorem c8_dataset_population (l : List Json) (lines : List (List Char))
    (ps : List Json) (st : DsState)
    (hvalid : ∀ s ∈ l, tameSample s)
    (hinv : ∀ x ∈ st.samples, validB x = true)
    (hlines : lines.map jsonLoads = ps.map some)
    (hps : ∀ s ∈ ps, tameSample s) :
    add_samples st l =
      (⟨st.samples ++ l.filter validB,
        st.failed_samples ++ l.filter (fun s => !validB s)⟩,
       l.filter (fun s => !validB s),
       (l.filter (fun s => !validB s)).map failureDescription,
       none) ∧
    (∀ x ∈ (add_samples st l).1.samples, validB x = true) ∧
    from_list l = (⟨l.filter validB, l.filter (fun s => !validB s)⟩, none) ∧
    (∀ x ∈ (from_list l).1.samples, validB x = true) ∧
    from_jsonl lines =
      (⟨ps.filter validB, ps.filter (fun s => !validB s)⟩, none) ∧
    (∀ x ∈ (from_jsonl lines).1.samples, validB x = true) := by
  have hvalid' : ∀ s ∈ l, ∃ b, validate_sample s = .ok b :=
    fun s hs => validate_sample_total s (hvalid s hs)
  have hps' : ∀ s ∈ ps, ∃ b, validate_sample s = .ok b :=
    fun s hs => validate_sample_total s (hps s hs)
  have hadd := add_samplesGo_spec l st [] [] hvalid'
  have hfl := from_listGo_spec l ⟨[], []⟩ hvalid'
  have hfj := from_jsonlGo_spec lines ps ⟨[], []⟩ hlines hps'
  refine ⟨by simpa [add_samples] using hadd, ?_, by simpa [from_list] using hfl,
    ?_, by simpa [from_jsonl] using hfj, ?_⟩
  · intro x hx
    rw [show add_samples st l = _ from by simpa [add_samples] using hadd] at hx
    simp only [] at hx
    rcases List.mem_append.mp hx with h1 | h1
    · exact hinv x h1
    · exact List.of_mem_filter h1
  · intro x hx
    rw [show from_list l = _ from by simpa [from_list] using hfl] at hx
    simp only [] at hx
    exact List.of_mem_filter (by simpa using hx)
  · intro x hx
    rw [show from_jsonl lines = _ from by simpa [from_jsonl] using hfj] at hx
    simp only [] at hx
    exact List.of_mem_filter (by simpa using hx)

/-- Valid concrete sample for the C8 witness. -/
def c8good : Json :=
  Json.obj [("messages", Json.arr
    [Json.obj [("role", Json.str "user"), ("content", Json.str "hi")]])]

/-- Invalid (bad role) but tame concrete sample for the C8 witness. -/
def c8bad : Json :=
  Json.obj [("messages", Json.arr
    [Json.obj [("role", Json.str "nope"), ("content", Json.str "x")]])]

theorem c8good_tame : tameSample c8good := by
  refine ⟨_, rfl, ?_⟩
  intro v hv
  have hv' : v = Json.arr
      [Json.obj [("role", Json.str "user"), ("content", Json.str "hi")]] :=
    (Option.some.inj hv).symm
  subst hv'
  refine ⟨_, rfl, ?_⟩
  intro m hm
  have := List.mem_singleton.mp hm
  subst this
  exact ⟨_, rfl⟩

theorem c8bad_tame : tameSample c8bad := by
  refine ⟨_, rfl, ?_⟩
  intro v hv
  have hv' : v = Json.arr
      [Json.obj [("role", Json.str "nope"), ("content", Json.str "x")]] :=
    (Option.some.inj hv).symm
  subst hv'
  refine ⟨_, rfl, ?_⟩
  intro m hm
  have := List.mem_singleton.mp hm
  subst this
  exact ⟨_, rfl⟩

/-- Witness for C8 (amended) on one valid and one invalid-but-tame sample,
and one parsed line. -/
theorem c8_dataset_population_witness :
    add_samples ⟨[], []⟩ [c8good, c8bad] =
      (⟨[c8good], [c8bad]⟩, [c8bad], [failureDescription c8bad], none) ∧
    from_list [c8good, c8bad] = (⟨[c8good], [c8bad]⟩, none) ∧
    from_jsonl ["\x7b\"messages\": []\x7d".data] =
      (⟨[Json.obj [("messages", Json.arr [])]], []⟩, none) := by
  have htame : ∀ s ∈ [c8good, c8bad], tameSample s := by
    intro s hs
    rcases List.mem_cons.mp hs with rfl | hs2
    · exact c8good_tame
    · have := List.mem_singleton.mp hs2
      subst this
      exact c8bad_tame
  have htame2 : ∀ s ∈ [Json.obj [("messages", Json.arr [])]], tameSample s := by
    intro s hs
    have := List.mem_singleton.mp hs
    subst this
    refine ⟨_, rfl, ?_⟩
    intro v hv
    have hv' : v = Json.arr [] := (Option.some.inj hv).symm
    subst hv'
    exact ⟨_, rfl, by intro m hm; exact absurd hm (List.not_mem_nil m)⟩
  have h := c8_dataset_population [c8good, c8bad] ["\x7b\"messages\": []\x7d".data]
    [Json.obj [("messages", Json.arr [])]] ⟨[], []⟩ htame
    (fun x hx => absurd hx (List.not_mem_nil x)) rfl htame2
  exact ⟨h.1, h.2.2.1, h.2.2.2.2.1⟩

/-- Adjacency relation forbidding two consecutive whitespace characters. -/
def noWsPair (a b : Char) : Prop :=
  ¬(pyIsSpaceChar a = true ∧ pyIsSpaceChar b = true)

theorem pysubSkip_eq_pysub (cs : List Char)
    (h : ∀ x, cs.head? = some x → pyIsSpaceChar x = false) :
    pysubSkip cs = pysub cs := by
  cases cs with
  | nil => rfl
  | cons c t =>
    have hc := h c rfl
    simp [pysubSkip, pysub, hc]

theorem pysub_id (cs : List Char) (hch : List.Chain' noWsPair cs)
    (hsp : ∀ ch ∈ cs, pyIsSpaceChar ch = true → ch = ' ') :
    pysub cs = cs := by
  induction cs with
  | nil => rfl
  | cons c t ih =>
    by_cases hc : pyIsSpaceChar c = true
    · have hce : c = ' ' := hsp c (by simp) hc
      have hhd : ∀ x, t.head? = some x → pyIsSpaceChar x = false := by
        intro x hx
        cases t with
        | nil => simp at hx
        | cons d u =>
          have hr := (List.chain'_cons.mp hch).1
          simp only [List.head?_cons, Option.some.injEq] at hx
          subst hx
          unfold noWsPair at hr
          by_contra hw
          exact hr ⟨hc, by simpa using hw⟩
      have ht := ih (List.Chain'.tail hch) (fun ch hm hw => hsp ch (by simp [hm]) hw)
      rw [show pysub (c :: t) = ' ' :: pysubSkip t from by simp [pysub, hc]]
      rw [pysubSkip_eq_pysub t hhd, ht, hce]
    · have ht := ih (List.Chain'.tail hch) (fun ch hm hw => hsp ch (by simp [hm]) hw)
      simp [pysub, hc, ht]

theorem joinWords_pywordsGo (cs : List Char) : ∀ (acc : List Char),
    List.Chain' noWsPair cs →
    (∀ ch ∈ cs, pyIsSpaceChar ch = true → ch = ' ') →
    (∀ x, cs.getLast? = some x → pyIsSpaceChar x = false) →
    (acc = [] → ∀ x, cs.head? = some x → pyIsSpaceChar x = false) →
    joinWords (pywordsGo acc cs) = acc.reverse ++ cs := by
  induction cs with
  | nil =>
    intro acc _ _ _ _
    cases acc with
    | nil => rfl
    | cons a as => simp [pywordsGo, joinWords]
  | cons c t ih =>
    intro acc hch hsp hlast hhead
    by_cases hc : pyIsSpaceChar c = true
    · have hce : c = ' ' := hsp c (by simp) hc
      have hacc : acc ≠ [] := by
        intro h0
        exact absurd hc (by simpa using hhead h0 c rfl)
      have htne : t ≠ [] := by
        intro h0
        subst h0
        exact absurd hc (by simpa using hlast c rfl)
      have hthead : ∀ x, t.head? = some x → pyIsSpaceChar x = false := by
        intro x hx
        cases t with
        | nil => simp at hx
        | cons d u =>
          have hr := (List.chain'_cons.mp hch).1
          simp only [List.head?_cons, Option.some.injEq] at hx
          subst hx
          unfold noWsPair at hr
          by_contra hw
          exact hr ⟨hc, by simpa using hw⟩
      have htlast : ∀ x, t.getLast? = some x → pyIsSpaceChar x = false := by
        intro x hx
        apply hlast
        cases t with
        | nil => simp at hx
        | cons d u => rw [List.getLast?_cons_cons]; exact hx
      have hrec := ih [] (List.Chain'.tail hch)
        (fun ch hm hw => hsp ch (by simp [hm]) hw) htlast (fun _ => hthead)
      have hstep : pywordsGo acc (c :: t) = acc.reverse :: pywordsGo [] t := by
        simp [pywordsGo, hc, List.isEmpty_eq_true, hacc]
      rw [hstep]
      have hLne : pywordsGo [] t ≠ [] := by
        intro h0
        rw [h0] at hrec
        simp [joinWords] at hrec
        exact htne hrec
      cases hL : pywordsGo [] t with
      | nil => exact absurd hL hLne
      | cons w ws =>
        rw [hL] at hrec
        rw [show joinWords (acc.reverse :: w :: ws) =
            acc.reverse ++ ' ' :: joinWords (w :: ws) from by simp [joinWords]]
        rw [hrec]
        simp [hce]
    · have hstep : pywordsGo acc (c :: t) = pywordsGo (c :: acc) t := by
        simp [pywordsGo, hc]
      have htlast : ∀ x, t.getLast? = some x → pyIsSpaceChar x = false := by
        intro x hx
        apply hlast
        cases t with
        | nil => simp at hx
        | cons d u => rw [List.getLast?_cons_cons]; exact hx
      have hrec := ih (c :: acc) (List.Chain'.tail hch)
        (fun ch hm hw => hsp ch (by simp [hm]) hw) htlast
        (fun h0 => absurd h0 (by simp))
      rw [hstep, hrec]
      simp

/-- Identity of `remove_linebreaks_and_spaces` on strings whose whitespace
consists of isolated single spaces, with non-whitespace first and last
characters. -/
theorem collapse_id (cs : List Char) (hch : List.Chain' noWsPair cs)
    (hsp : ∀ ch ∈ cs, pyIsSpaceChar ch = true → ch = ' ')
    (hhead : ∀ x, cs.head? = some x → pyIsSpaceChar x = false)
    (hlast : ∀ x, cs.getLast? = some x → pyIsSpaceChar x = false) :
    remove_linebreaks_and_spaces cs = cs := by
  unfold remove_linebreaks_and_spaces
  rw [pysub_id cs hch hsp]
  simpa using joinWords_pywordsGo cs [] hch hsp hlast (fun _ => hhead)

/-- Adjacency relation forbidding two consecutive literal spaces. -/
def noSpacePair (a b : Char) : Prop :=
  ¬(a = ' ' ∧ b = ' ')

/-- Characters allowed in message contents for the round-trip theorem:
ASCII, with control characters restricted to the ones `json.dumps` encodes
with a short escape. -/
def contentChar (c : Char) : Bool :=
  decide (c.toNat ≤ 126) &&
    (decide (32 ≤ c.toNat) || c == '\n' || c == '\t' || c == '\r' ||
      c == Char.ofNat 8 || c == Char.ofNat 12)

/-- Segments whose whitespace is made of isolated single spaces and whose
first character is not whitespace. -/
def GoodSeg (cs : List Char) : Prop :=
  List.Chain' noWsPair cs ∧ (∀ ch ∈ cs, pyIsSpaceChar ch = true → ch = ' ') ∧
  (∀ x, cs.head? = some x → pyIsSpaceChar x = false)

theorem goodSeg_nil : GoodSeg [] :=
  ⟨List.chain'_nil, by simp, by simp⟩

theorem goodSeg_append (a b : List Char) (ha : GoodSeg a) (hb : GoodSeg b) :
    GoodSeg (a ++ b) := by
  refine ⟨?_, ?_, ?_⟩
  · rw [List.chain'_append]
    refine ⟨ha.1, hb.1, ?_⟩
    intro x _ y hy
    unfold noWsPair
    rintro ⟨_, hwy⟩
    rw [hb.2.2 y (Option.mem_def.mp hy)] at hwy
    simp at hwy
  · intro ch hm hw
    rcases List.mem_append.mp hm with h1 | h1
    · exact ha.2.1 ch h1 hw
    · exact hb.2.1 ch h1 hw
  · intro x hx
    cases a with
    | nil => exact hb.2.2 x (by simpa using hx)
    | cons c t => exact ha.2.2 x (by simpa using hx)

theorem goodSeg_cons (c : Char) (cs : List Char) (hc : pyIsSpaceChar c = false)
    (h : GoodSeg cs) : GoodSeg (c :: cs) := by
  refine ⟨?_, ?_, ?_⟩
  · rw [List.chain'_cons']
    refine ⟨?_, h.1⟩
    intro y _
    unfold noWsPair
    rintro ⟨hwc, _⟩
    rw [hc] at hwc
    simp at hwc
  · intro ch hm hw
    rcases List.mem_cons.mp hm with rfl | h1
    · rw [hc] at hw; simp at hw
    · exact h.2.1 ch h1 hw
  · intro x hx
    simp only [List.head?_cons, Option.some.injEq] at hx
    subst hx
    exact hc

theorem goodSeg_singleton (c : Char) (hc : pyIsSpaceChar c = false) :
    GoodSeg [c] :=
  goodSeg_cons c [] hc goodSeg_nil

theorem goodSeg_glue (p : Char) (cs : List Char) (hp : pyIsSpaceChar p = false)
    (h : GoodSeg cs) : GoodSeg (p :: ' ' :: cs) := by
  refine ⟨?_, ?_, ?_⟩
  · rw [List.chain'_cons]
    refine ⟨?_, ?_⟩
    · unfold noWsPair
      rintro ⟨hwp, _⟩
      rw [hp] at hwp
      simp at hwp
    · rw [List.chain'_cons']
      refine ⟨?_, h.1⟩
      intro y hy
      unfold noWsPair
      rintro ⟨_, hwy⟩
      rw [h.2.2 y (Option.mem_def.mp hy)] at hwy
      simp at hwy
  · intro ch hm hw
    rcases List.mem_cons.mp hm with rfl | h1
    · rw [hp] at hw; simp at hw
    · rcases List.mem_cons.mp h1 with rfl | h2
      · rfl
      · exact h.2.1 ch h2 hw
  · intro x hx
    simp only [List.head?_cons, Option.some.injEq] at hx
    subst hx
    exact hp

theorem not_ws_of_printable (c : Char) (h1 : 32 ≤ c.toNat) (h2 : c ≠ ' ') :
    pyIsSpaceChar c = false := by
  have ht : c ≠ '\t' := fun he => by subst he; exact absurd h1 (by decide)
  have hn : c ≠ '\n' := fun he => by subst he; exact absurd h1 (by decide)
  have hr : c ≠ '\r' := fun he => by subst he; exact absurd h1 (by decide)
  have hv : c ≠ Char.ofNat 11 := fun he => by subst he; exact absurd h1 (by decide)
  have hf : c ≠ Char.ofNat 12 := fun he => by subst he; exact absurd h1 (by decide)
  simp [pyIsSpaceChar, h2, ht, hn, hr, hv, hf]

theorem escapeChar_space : escapeChar ' ' = [' '] := rfl

theorem escapeChar_ne_nil (c : Char) : escapeChar c ≠ [] := by
  unfold escapeChar
  split_ifs <;> simp

theorem escapeChar_no_ws (c : Char) (hcc : contentChar c = true) (hsp : c ≠ ' ') :
    ∀ x ∈ escapeChar c, pyIsSpaceChar x = false := by
  intro x hx
  unfold escapeChar at hx
  split_ifs at hx with h1 h2 h3 h4 h5 h6 h7 h8
  · rcases List.mem_cons.mp hx with rfl | hx2
    · decide
    · rcases List.mem_singleton.mp hx2 with rfl; decide
  · rcases List.mem_cons.mp hx with rfl | hx2
    · decide
    · rcases List.mem_singleton.mp hx2 with rfl; decide
  · rcases List.mem_cons.mp hx with rfl | hx2
    · decide
    · rcases List.mem_singleton.mp hx2 with rfl; decide
  · rcases List.mem_cons.mp hx with rfl | hx2
    · decide
    · rcases List.mem_singleton.mp hx2 with rfl; decide
  · rcases List.mem_cons.mp hx with rfl | hx2
    · decide
    · rcases List.mem_singleton.mp hx2 with rfl; decide
  · rcases List.mem_cons.mp hx with rfl | hx2
    · decide
    · rcases List.mem_singleton.mp hx2 with rfl; decide
  · rcases List.mem_cons.mp hx with rfl | hx2
    · decide
    · rcases List.mem_singleton.mp hx2 with rfl; decide
  · have hxc := List.mem_singleton.mp hx
    subst hxc
    exact not_ws_of_printable _ h8.1 hsp
  · exfalso
    simp only [contentChar, Bool.and_eq_true, Bool.or_eq_true, decide_eq_true_eq,
      beq_iff_eq] at hcc
    obtain ⟨hle, hdis⟩ := hcc
    have h32 : 32 ≤ c.toNat := by tauto
    exact h8 ⟨h32, hle⟩

theorem escapeChar_ws_mem (c x : Char) (hcc : contentChar c = true)
    (hx : x ∈ escapeChar c) (hw : pyIsSpaceChar x = true) :
    x = ' ' ∧ c = ' ' := by
  by_cases hsp : c = ' '
  · subst hsp
    rw [escapeChar_space] at hx
    exact ⟨List.mem_singleton.mp hx, rfl⟩
  · rw [escapeChar_no_ws c hcc hsp x hx] at hw
    simp at hw

theorem chain'_of_all_not_ws (l : List Char)
    (h : ∀ x ∈ l, pyIsSpaceChar x = false) : List.Chain' noWsPair l := by
  induction l with
  | nil => exact List.chain'_nil
  | cons a t ih =>
    rw [List.chain'_cons']
    refine ⟨?_, ih (fun x hx => h x (by simp [hx]))⟩
    intro y _
    unfold noWsPair
    rintro ⟨hwa, _⟩
    rw [h a (by simp)] at hwa
    simp at hwa

theorem flat_props (s : List Char) (hcc : ∀ ch ∈ s, contentChar ch = true)
    (hch : List.Chain' noSpacePair s) :
    List.Chain' noWsPair ((s.map escapeChar).flatten) ∧
    (∀ ch ∈ (s.map escapeChar).flatten, pyIsSpaceChar ch = true → ch = ' ') ∧
    (∀ x, ((s.map escapeChar).flatten).head? = some x →
      pyIsSpaceChar x = true → s.head? = some ' ') := by
  induction s with
  | nil => exact ⟨List.chain'_nil, by simp, by simp⟩
  | cons c t ih =>
    have hc := hcc c (by simp)
    have iht := ih (fun ch hm => hcc ch (by simp [hm])) (List.Chain'.tail hch)
    refine ⟨?_, ?_, ?_⟩
    · simp only [List.map_cons, List.flatten_cons]
      rw [List.chain'_append]
      refine ⟨?_, iht.1, ?_⟩
      · by_cases hsp : c = ' '
        · subst hsp
          rw [escapeChar_space]
          exact List.chain'_singleton _
        · exact chain'_of_all_not_ws _ (escapeChar_no_ws c hc hsp)
      · intro x hx y hy
        unfold noWsPair
        rintro ⟨hwx, hwy⟩
        have hxm : x ∈ escapeChar c :=
          List.mem_of_getLast?_eq_some (Option.mem_def.mp hx)
        obtain ⟨_, hc'⟩ := escapeChar_ws_mem c x hc hxm hwx
        have hty : t.head? = some ' ' := iht.2.2 y (Option.mem_def.mp hy) hwy
        cases t with
        | nil => simp at hty
        | cons d u =>
          have hd : d = ' ' := by simpa using hty
          exact (List.chain'_cons.mp hch).1 ⟨hc', hd⟩
    · intro ch hm hw
      simp only [List.map_cons, List.flatten_cons, List.mem_append] at hm
      rcases hm with hm | hm
      · exact (escapeChar_ws_mem c ch hc hm hw).1
      · exact iht.2.1 ch hm hw
    · intro x hx hw
      simp only [List.map_cons, List.flatten_cons] at hx
      have hxm : x ∈ escapeChar c := by
        cases he : escapeChar c with
        | nil => exact absurd he (escapeChar_ne_nil c)
        | cons a as =>
          rw [he, List.cons_append] at hx
          simp only [List.head?_cons, Option.some.injEq] at hx
          subst hx
          simp
      obtain ⟨_, hc'⟩ := escapeChar_ws_mem c x hc hxm hw
      simp [hc']

theorem dumpString_goodSeg (s : String)
    (hcc : ∀ ch ∈ s.data, contentChar ch = true)
    (hch : List.Chain' noSpacePair s.data) : GoodSeg (dumpString s) := by
  obtain ⟨h1, h2, _⟩ := flat_props s.data hcc hch
  unfold dumpString
  refine ⟨?_, ?_, ?_⟩
  · rw [List.chain'_append]
    refine ⟨?_, List.chain'_singleton _, ?_⟩
    · rw [List.chain'_cons']
      refine ⟨?_, h1⟩
      intro y _
      unfold noWsPair
      rintro ⟨hw, _⟩
      exact absurd hw (by decide)
    · intro x _ y hy
      unfold noWsPair
      rintro ⟨_, hwy⟩
      have hyv : dqChar = y := by simpa using (Option.mem_def.mp hy)
      subst hyv
      exact absurd hwy (by decide)
  · intro ch hm hw
    rcases List.mem_append.mp hm with hm2 | hm2
    · rcases List.mem_cons.mp hm2 with rfl | hm3
      · exact absurd hw (by decide)
      · exact h2 ch hm3 hw
    · have hce := List.mem_singleton.mp hm2
      subst hce
      exact absurd hw (by decide)
  · intro x hx
    simp only [List.cons_append, List.head?_cons, Option.some.injEq] at hx
    subst hx
    decide

instance noWsPairDecidable (a b : Char) : Decidable (noWsPair a b) :=
  inferInstanceAs (Decidable (¬(pyIsSpaceChar a = true ∧ pyIsSpaceChar b = true)))

instance noSpacePairDecidable (a b : Char) : Decidable (noSpacePair a b) :=
  inferInstanceAs (Decidable (¬(a = ' ' ∧ b = ' ')))

/-- Canonical message object as the engine validates and saves it. -/
def msgObj (r c : String) : Json :=
  Json.obj [("role", Json.str r), ("content", Json.str c)]

/-- Canonical, round-trippable message: role from the closed set, content
over `contentChar` with no two consecutive spaces. -/
def MsgOK (m : Json) : Prop :=
  ∃ r c, m = msgObj r c ∧ r ∈ (["user", "assistant", "system"] : List String) ∧
    (∀ ch ∈ c.data, contentChar ch = true) ∧ List.Chain' noSpacePair c.data

/-- Canonical sample object. -/
def sampleObj (msgs : List Json) : Json :=
  Json.obj [("messages", Json.arr msgs)]

/-- Canonical, round-trippable sample. -/
def SampleOK (s : Json) : Prop :=
  ∃ msgs, s = sampleObj msgs ∧ ∀ m ∈ msgs, MsgOK m

theorem chain'_noSpacePair_of_no_space (l : List Char) (h : ∀ x ∈ l, x ≠ ' ') :
    List.Chain' noSpacePair l := by
  induction l with
  | nil => exact List.chain'_nil
  | cons a t ih =>
    rw [List.chain'_cons']
    refine ⟨?_, ih (fun x hx => h x (by simp [hx]))⟩
    intro y _
    rintro ⟨ha, _⟩
    exact h a (by simp) ha

theorem roleString_good (r : String)
    (hr : r ∈ (["user", "assistant", "system"] : List String)) :
    (∀ ch ∈ r.data, contentChar ch = true) ∧ List.Chain' noSpacePair r.data := by
  rcases List.mem_cons.mp hr with rfl | hr2
  · exact ⟨by decide, chain'_noSpacePair_of_no_space _ (by decide)⟩
  rcases List.mem_cons.mp hr2 with rfl | hr3
  · exact ⟨by decide, chain'_noSpacePair_of_no_space _ (by decide)⟩
  have := List.mem_singleton.mp hr3
  subst this
  exact ⟨by decide, chain'_noSpacePair_of_no_space _ (by decide)⟩

theorem goodSeg_dumps_msg (m : Json) (h : MsgOK m) : GoodSeg (dumps m) := by
  obtain ⟨r, c, rfl, hrole, hcc, hch⟩ := h
  have hrgood := roleString_good r hrole
  unfold msgObj
  simp only [dumps, dumpMembers]
  apply goodSeg_append
  · apply goodSeg_cons _ _ (by decide)
    apply goodSeg_append
    · apply goodSeg_append
      · exact dumpString_goodSeg "role" (by decide)
          (chain'_noSpacePair_of_no_space _ (by decide))
      · exact goodSeg_glue _ _ (by decide) (dumpString_goodSeg r hrgood.1 hrgood.2)
    · apply goodSeg_glue _ _ (by decide)
      apply goodSeg_append
      · exact dumpString_goodSeg "content" (by decide)
          (chain'_noSpacePair_of_no_space _ (by decide))
      · exact goodSeg_glue _ _ (by decide) (dumpString_goodSeg c hcc hch)
  · exact goodSeg_singleton _ (by decide)

theorem goodSeg_dumpItems (msgs : List Json) (h : ∀ m ∈ msgs, MsgOK m) :
    GoodSeg (dumpItems msgs) := by
  induction msgs with
  | nil => exact goodSeg_nil
  | cons m t ih =>
    cases t with
    | nil =>
      rw [show dumpItems [m] = dumps m from rfl]
      exact goodSeg_dumps_msg m (h m (by simp))
    | cons m2 t2 =>
      rw [show dumpItems (m :: m2 :: t2) =
        dumps m ++ ',' :: ' ' :: dumpItems (m2 :: t2) from rfl]
      apply goodSeg_append
      · exact goodSeg_dumps_msg m (h m (by simp))
      · exact goodSeg_glue _ _ (by decide) (ih (fun x hx => h x (by simp [hx])))

theorem goodSeg_dumps_sample (msgs : List Json) (h : ∀ m ∈ msgs, MsgOK m) :
    GoodSeg (dumps (sampleObj msgs)) := by
  unfold sampleObj
  simp only [dumps, dumpMembers]
  apply goodSeg_append
  · apply goodSeg_cons _ _ (by decide)
    apply goodSeg_append
    · exact dumpString_goodSeg "messages" (by decide)
          (chain'_noSpacePair_of_no_space _ (by decide))
    · apply goodSeg_glue _ _ (by decide)
      apply goodSeg_append
      · exact goodSeg_cons _ _ (by decide) (goodSeg_dumpItems msgs h)
      · exact goodSeg_singleton _ (by decide)
  · exact goodSeg_singleton _ (by decide)

theorem saveLine_id (msgs : List Json) (h : ∀ m ∈ msgs, MsgOK m) :
    saveLine (sampleObj msgs) = dumps (sampleObj msgs) := by
  obtain ⟨h1, h2, h3⟩ := goodSeg_dumps_sample msgs h
  unfold saveLine
  apply collapse_id _ h1 h2 h3
  intro x hx
  have hshape : dumps (sampleObj msgs) =
      (lbrace :: (dumpString "messages" ++ ':' :: ' ' ::
        (('[' :: dumpItems msgs) ++ [']']))) ++ [rbrace] := by
    simp only [sampleObj, dumps, dumpMembers]
  rw [hshape, List.getLast?_concat] at hx
  have : rbrace = x := by simpa using hx
  subst this
  decide
theorem skipWs_nows (c : Char) (cs : List Char) (h : jsonWs c = false) :
    skipWs (c :: cs) = c :: cs := by
  simp [skipWs, h]

theorem skipWs_space (cs : List Char) : skipWs (' ' :: cs) = skipWs cs := by
  simp [skipWs, jsonWs]

theorem escapeChar_parse (c : Char) (hc : contentChar c = true)
    (tail : List Char) :
    parseStringBody (escapeChar c ++ tail) =
      (parseStringBody tail).map (fun r => (c :: r.1, r.2)) := by
  by_cases h1 : c = dqChar
  · subst h1
    rw [show escapeChar dqChar = ['\\', dqChar] from by decide]
    rw [List.cons_append, List.cons_append, List.nil_append]
    rw [parseStringBody.eq_def]
    simp +decide [unescape]
  by_cases h2 : c = '\\'
  · subst h2
    rw [show escapeChar '\\' = ['\\', '\\'] from by decide]
    rw [List.cons_append, List.cons_append, List.nil_append]
    rw [parseStringBody.eq_def]
    simp +decide [unescape]
  by_cases h3 : c = '\n'
  · subst h3
    rw [show escapeChar '\n' = ['\\', 'n'] from by decide]
    rw [List.cons_append, List.cons_append, List.nil_append]
    rw [parseStringBody.eq_def]
    simp +decide [unescape]
  by_cases h4 : c = '\t'
  · subst h4
    rw [show escapeChar '\t' = ['\\', 't'] from by decide]
    rw [List.cons_append, List.cons_append, List.nil_append]
    rw [parseStringBody.eq_def]
    simp +decide [unescape]
  by_cases h5 : c = '\r'
  · subst h5
    rw [show escapeChar '\r' = ['\\', 'r'] from by decide]
    rw [List.cons_append, List.cons_append, List.nil_append]
    rw [parseStringBody.eq_def]
    simp +decide [unescape]
  by_cases h6 : c = Char.ofNat 8
  · subst h6
    rw [show escapeChar (Char.ofNat 8) = ['\\', 'b'] from by decide]
    rw [List.cons_append, List.cons_append, List.nil_append]
    rw [parseStringBody.eq_def]
    simp +decide [unescape]
  by_cases h7 : c = Char.ofNat 12
  · subst h7
    rw [show escapeChar (Char.ofNat 12) = ['\\', 'f'] from by decide]
    rw [List.cons_append, List.cons_append, List.nil_append]
    rw [parseStringBody.eq_def]
    simp +decide [unescape]
  have h8 : 32 ≤ c.toNat ∧ c.toNat ≤ 126 := by
    simp only [contentChar, Bool.and_eq_true, Bool.or_eq_true, decide_eq_true_eq,
      beq_iff_eq] at hc
    obtain ⟨hle, hdis⟩ := hc
    have h32 : 32 ≤ c.toNat := by tauto
    exact ⟨h32, hle⟩
  have he : escapeChar c = [c] := by
    simp [escapeChar, h1, h2, h3, h4, h5, h6, h7, h8.1, h8.2]
  rw [he]
  rw [List.cons_append, List.nil_append, parseStringBody.eq_def]
  simp [h1, h2]

theorem parseStringBody_flat (s : List Char)
    (h : ∀ ch ∈ s, contentChar ch = true) (rest : List Char) :
    parseStringBody ((s.map escapeChar).flatten ++ dqChar :: rest) =
      some (s, rest) := by
  induction s with
  | nil =>
    rw [List.map_nil, List.flatten_nil, List.nil_append, parseStringBody.eq_def]
    simp
  | cons c t ih =>
    simp only [List.map_cons, List.flatten_cons, List.append_assoc]
    rw [escapeChar_parse c (h c (by simp))]
    rw [ih (fun ch hm => h ch (by simp [hm]))]
    rfl
theorem parseVal_dumpString (f : Nat) (s : String)
    (h : ∀ ch ∈ s.data, contentChar ch = true) (rest : List Char) :
    parseVal (f+1) (dumpString s ++ rest) = some (.str s, rest) := by
  have hshape : dumpString s ++ rest =
      dqChar :: ((s.data.map escapeChar).flatten ++ dqChar :: rest) := by
    simp [dumpString]
  rw [hshape]
  rw [show (f + 1) = f.succ from rfl]
  rw [parseVal.eq_def]
  simp only []
  rw [skipWs_nows _ _ (by decide)]
  simp only [if_true]
  rw [parseStringBody_flat s.data h rest]
  rfl

theorem parseVal_ws (f : Nat) (cs : List Char) :
    parseVal (f+1) (' ' :: cs) = parseVal (f+1) cs := by
  rw [show (f + 1) = f.succ from rfl, parseVal.eq_def, parseVal.eq_def]
  simp only []
  rw [skipWs_space]

theorem dumpString_cons (s : String) (X : List Char) :
    dumpString s ++ X = dqChar :: ((s.data.map escapeChar).flatten ++ dqChar :: X) := by
  simp [dumpString]

theorem parseVal_msg (f : Nat) (r c : String)
    (hr : ∀ ch ∈ r.data, contentChar ch = true)
    (hc : ∀ ch ∈ c.data, contentChar ch = true) (rest : List Char) :
    parseVal (f+4) (dumps (msgObj r c) ++ rest) = some (msgObj r c, rest) := by
  have hshape : dumps (msgObj r c) ++ rest =
      lbrace :: (dumpString "role" ++ ':' :: ' ' ::
        (dumpString r ++ ',' :: ' ' ::
          (dumpString "content" ++ ':' :: ' ' ::
            (dumpString c ++ rbrace :: rest)))) := by
    simp [msgObj, dumps, dumpMembers, List.append_assoc]
  rw [hshape]
  rw [show (f + 4) = (f+3).succ from rfl]
  rw [parseVal.eq_def]
  simp only []
  rw [skipWs_nows _ _ (by decide)]
  simp only [reduceIte]
  rw [dumpString_cons "role"]
  rw [skipWs_nows _ _ (by decide)]
  simp only [reduceIte]
  rw [show ((f:Nat)+3) = (f+2).succ from rfl]
  rw [parseMembers.eq_def]
  simp only []
  rw [skipWs_nows _ _ (by decide)]
  simp only [reduceIte]
  rw [parseStringBody_flat "role".data (by decide)]
  simp only []
  rw [skipWs_nows _ _ (by decide)]
  simp only [reduceIte]
  rw [show ((f:Nat)+2) = (f+1)+1 from rfl]
  rw [parseVal_ws]
  rw [parseVal_dumpString (f+1) r hr]
  simp only []
  rw [skipWs_nows _ _ (by decide)]
  simp only [reduceIte]
  rw [show ((f:Nat)+1)+1 = (f+1).succ from rfl]
  rw [parseMembers.eq_def]
  simp only []
  rw [skipWs_space]
  rw [dumpString_cons "content"]
  rw [skipWs_nows _ _ (by decide)]
  simp only [reduceIte]
  rw [parseStringBody_flat "content".data (by decide)]
  simp only []
  rw [skipWs_nows _ _ (by decide)]
  simp only [reduceIte]
  rw [parseVal_ws]
  rw [parseVal_dumpString f c hc]
  simp only []
  rw [skipWs_nows _ _ (by decide)]
  simp only [reduceIte]
  rfl

theorem parseElems_ws (f : Nat) (cs : List Char) (acc : List Json) :
    parseElems (f+2) (' ' :: cs) acc = parseElems (f+2) cs acc := by
  rw [show (f+2) = (f+1).succ from rfl, parseElems.eq_def, parseElems.eq_def]
  simp only []
  rw [parseVal_ws]

theorem parseElems_msgs (t : List Json) :
    (∀ m ∈ t, MsgOK m) → t ≠ [] → ∀ (f : Nat) (acc : List Json) (rest : List Char),
    parseElems (5 * t.length + f + 4) (dumpItems t ++ ']' :: rest) acc =
      some (.arr (acc ++ t), rest) := by
  induction t with
  | nil => intro _ hne; exact absurd rfl hne
  | cons m t ih =>
    intro h _ f acc rest
    obtain ⟨r, c, rfl, hrole, hcc, hch⟩ := h m (by simp)
    have hrc := roleString_good r hrole
    cases t with
    | nil =>
      rw [show dumpItems [msgObj r c] = dumps (msgObj r c) from rfl]
      rw [show 5 * ([msgObj r c] : List Json).length + f + 4 = (f+8).succ from by
        simp only [List.length_singleton]; omega]
      rw [parseElems.eq_def]
      simp only []
      rw [show ((f:Nat)+8) = (f+4)+4 from by omega]
      rw [parseVal_msg (f+4) r c hrc.1 hcc]
      simp only []
      rw [skipWs_nows _ _ (by decide)]
      simp only [reduceIte]
      rw [if_neg (show ¬((']' : Char) = ',') from by decide)]
    | cons m2 t2 =>
      rw [show dumpItems (msgObj r c :: m2 :: t2) =
        dumps (msgObj r c) ++ ',' :: ' ' :: dumpItems (m2 :: t2) from rfl]
      rw [show 5 * (msgObj r c :: m2 :: t2 : List Json).length + f + 4 =
        (5 * t2.length + f + 13).succ from by
        simp only [List.length_cons]; omega]
      rw [parseElems.eq_def]
      simp only []
      rw [List.append_assoc]
      simp only [List.cons_append]
      rw [show 5 * t2.length + f + 13 = (5 * t2.length + f + 9)+4 from by omega]
      rw [parseVal_msg _ r c hrc.1 hcc]
      simp only []
      rw [skipWs_nows _ _ (by decide)]
      simp only [reduceIte]
      rw [show (5 * t2.length + f + 9)+4 = (5 * t2.length + f + 11)+2 from by omega]
      rw [parseElems_ws]
      rw [show (5 * t2.length + f + 11)+2 = 5 * (m2 :: t2 : List Json).length + (f+4) + 4 from by
        simp only [List.length_cons]; omega]
      rw [ih (fun x hx => h x (by simp [hx])) (by simp) (f+4) (acc ++ [msgObj r c]) rest]
      simp [List.append_assoc]

theorem parseVal_arr_msgs (g : Nat) (msgs : List Json)
    (h : ∀ m ∈ msgs, MsgOK m) (Y : List Char) :
    parseVal (5 * msgs.length + g + 5) ('[' :: (dumpItems msgs ++ ']' :: Y)) =
      some (.arr msgs, Y) := by
  rw [show 5 * msgs.length + g + 5 = (5 * msgs.length + g + 4).succ from by omega]
  rw [parseVal.eq_def]
  simp only []
  rw [skipWs_nows _ _ (by decide)]
  simp only []
  rw [if_neg (show ¬(('[' : Char) = dqChar) from by decide)]
  rw [if_neg (show ¬(('[' : Char) = lbrace) from by decide)]
  simp only [reduceIte]
  cases msgs with
  | nil =>
    rw [show dumpItems ([] : List Json) = [] from rfl, List.nil_append]
    rw [skipWs_nows _ _ (by decide)]
    simp only [reduceIte]
  | cons m t =>
    obtain ⟨r, c, rfl, hrole, hcc, hch⟩ := h m (by simp)
    cases t with
    | nil =>
      have hd : dumpItems [msgObj r c] ++ ']' :: Y =
          lbrace :: (dumpMembers [("role", Json.str r), ("content", Json.str c)] ++
            rbrace :: ']' :: Y) := by
        simp [dumpItems, dumps, msgObj, List.append_assoc]
      rw [hd]
      rw [skipWs_nows _ _ (by decide)]
      simp only [reduceIte]
      rw [if_neg (show ¬(lbrace = ']') from by decide)]
      rw [← hd]
      have he := parseElems_msgs [msgObj r c]
        (by intro x hx
            have hxe := List.mem_singleton.mp hx
            subst hxe
            exact ⟨r, c, rfl, hrole, hcc, hch⟩)
        (by simp) g [] Y
      simpa using he
    | cons m2 t2 =>
      have hd : dumpItems (msgObj r c :: m2 :: t2) ++ ']' :: Y =
          lbrace :: (dumpMembers [("role", Json.str r), ("content", Json.str c)] ++
            rbrace :: ',' :: ' ' :: (dumpItems (m2 :: t2) ++ ']' :: Y)) := by
        simp [dumpItems, dumps, msgObj, List.append_assoc]
      rw [hd]
      rw [skipWs_nows _ _ (by decide)]
      simp only [reduceIte]
      rw [if_neg (show ¬(lbrace = ']') from by decide)]
      rw [← hd]
      have he := parseElems_msgs (msgObj r c :: m2 :: t2)
        (by intro x hx
            rcases List.mem_cons.mp hx with rfl | hx2
            · exact ⟨r, c, rfl, hrole, hcc, hch⟩
            · exact h x (by simp [hx2]))
        (by simp) g [] Y
      simpa using he

theorem parseVal_sample (f : Nat) (msgs : List Json)
    (h : ∀ m ∈ msgs, MsgOK m) (rest : List Char) :
    parseVal (5 * msgs.length + f + 7) (dumps (sampleObj msgs) ++ rest) =
      some (sampleObj msgs, rest) := by
  have hshape : dumps (sampleObj msgs) ++ rest =
      lbrace :: (dumpString "messages" ++ ':' :: ' ' ::
        ('[' :: (dumpItems msgs ++ ']' :: rbrace :: rest))) := by
    simp [sampleObj, dumps, dumpMembers, List.append_assoc]
  rw [hshape]
  rw [show 5 * msgs.length + f + 7 = (5 * msgs.length + f + 6).succ from by omega]
  rw [parseVal.eq_def]
  simp only []
  rw [skipWs_nows _ _ (by decide)]
  simp only [reduceIte]
  rw [dumpString_cons "messages"]
  rw [skipWs_nows _ _ (by decide)]
  simp only []
  rw [if_neg (show ¬(dqChar = rbrace) from by decide)]
  rw [show 5 * msgs.length + f + 6 = (5 * msgs.length + f + 5).succ from by omega]
  rw [parseMembers.eq_def]
  simp only []
  rw [skipWs_nows _ _ (by decide)]
  simp only [reduceIte]
  rw [parseStringBody_flat "messages".data (by decide)]
  simp only []
  rw [skipWs_nows _ _ (by decide)]
  simp only [reduceIte]
  rw [show 5 * msgs.length + f + 5 = (5 * msgs.length + f + 4)+1 from by omega]
  rw [parseVal_ws]
  rw [show 5 * msgs.length + f + 4 + 1 = 5 * msgs.length + f + 5 from by omega]
  rw [parseVal_arr_msgs f msgs h]
  simp only []
  rw [skipWs_nows _ _ (by decide)]
  simp only [reduceIte]
  rw [if_neg (show ¬(rbrace = ',') from by decide)]
  rfl
theorem validateMessage_canonical (r c : String)
    (hrole : r ∈ (["user", "assistant", "system"] : List String)) :
    validateMessage (msgObj r c) = .ok true := by
  rcases List.mem_cons.mp hrole with rfl | h2
  · rfl
  rcases List.mem_cons.mp h2 with rfl | h3
  · rfl
  have := List.mem_singleton.mp h3
  subst this
  rfl

theorem validateMessages_canonical (msgs : List Json)
    (h : ∀ m ∈ msgs, MsgOK m) : validateMessages msgs = .ok true := by
  induction msgs with
  | nil => rfl
  | cons m t ih =>
    obtain ⟨r, c, rfl, hrole, _, _⟩ := h m (by simp)
    simp only [validateMessages, Bind.bind, Except.bind]
    rw [validateMessage_canonical r c hrole]
    simp only []
    exact ih (fun x hx => h x (by simp [hx]))

theorem validate_sample_canonical (msgs : List Json)
    (h : ∀ m ∈ msgs, MsgOK m) : validate_sample (sampleObj msgs) = .ok true := by
  have hstep : validate_sample (sampleObj msgs) = validateMessages msgs := rfl
  rw [hstep]
  exact validateMessages_canonical msgs h

theorem dumps_msgObj_len (r c : String) : 5 ≤ (dumps (msgObj r c)).length := by
  have hshape : dumps (msgObj r c) =
      lbrace :: (dumpString "role" ++ ':' :: ' ' ::
        (dumpString r ++ ',' :: ' ' ::
          (dumpString "content" ++ ':' :: ' ' :: (dumpString c ++ [rbrace])))) := by
    simp [msgObj, dumps, dumpMembers, List.append_assoc]
  rw [hshape]
  have h6 : (dumpString "role").length = 6 := by decide
  simp only [List.length_cons, List.length_append]
  omega

theorem dumpItems_msgs_len (msgs : List Json) (h : ∀ m ∈ msgs, MsgOK m) :
    5 * msgs.length ≤ (dumpItems msgs).length := by
  induction msgs with
  | nil => simp
  | cons m t ih =>
    obtain ⟨r, c, rfl, _, _, _⟩ := h m (by simp)
    cases t with
    | nil =>
      rw [show dumpItems [msgObj r c] = dumps (msgObj r c) from rfl]
      have h1 := dumps_msgObj_len r c
      simp only [List.length_singleton]
      omega
    | cons m2 t2 =>
      rw [show dumpItems (msgObj r c :: m2 :: t2) =
        dumps (msgObj r c) ++ ',' :: ' ' :: dumpItems (m2 :: t2) from rfl]
      have h1 := dumps_msgObj_len r c
      have h2 := ih (fun x hx => h x (by simp [hx]))
      simp only [List.length_append, List.length_cons] at h2 ⊢
      omega

theorem dumps_sample_len (msgs : List Json) (h : ∀ m ∈ msgs, MsgOK m) :
    5 * msgs.length + 6 ≤ (dumps (sampleObj msgs)).length := by
  have hshape : dumps (sampleObj msgs) =
      lbrace :: (dumpString "messages" ++ ':' :: ' ' ::
        ('[' :: (dumpItems msgs ++ ']' :: [rbrace]))) := by
    simp [sampleObj, dumps, dumpMembers, List.append_assoc]
  rw [hshape]
  have h1 := dumpItems_msgs_len msgs h
  have h2 : (dumpString "messages").length = 10 := by decide
  simp only [List.length_cons, List.length_append]
  omega

theorem jsonLoads_dumps_sample (msgs : List Json) (h : ∀ m ∈ msgs, MsgOK m) :
    jsonLoads (dumps (sampleObj msgs)) = some (sampleObj msgs) := by
  have hlen := dumps_sample_len msgs h
  unfold jsonLoads
  rw [show dumps (sampleObj msgs) = dumps (sampleObj msgs) ++ []
    from (List.append_nil _).symm]
  have hf : (dumps (sampleObj msgs) ++ []).length + 1 =
      5 * msgs.length +
        ((dumps (sampleObj msgs) ++ []).length - 5 * msgs.length - 6) + 7 := by
    simp only [List.append_nil]
    omega
  rw [hf]
  rw [parseVal_sample _ msgs h []]
  simp [skipWs]

theorem from_jsonlGo_save (ds : List Json) :
    (∀ s ∈ ds, SampleOK s) → ∀ st : DsState,
    from_jsonlGo st (ds.map saveLine) =
      ({ st with samples := st.samples ++ ds }, none) := by
  induction ds with
  | nil => intro _ st; simp [from_jsonlGo]
  | cons s t ih =>
    intro h st
    obtain ⟨msgs, rfl, hm⟩ := h s (by simp)
    rw [List.map_cons]
    simp only [from_jsonlGo]
    rw [saveLine_id msgs hm]
    rw [jsonLoads_dumps_sample msgs hm]
    simp only []
    rw [validate_sample_canonical msgs hm]
    simp only []
    rw [ih (fun x hx => h x (by simp [hx]))]
    simp [List.append_assoc]

/-- Content of the first message of the first sample, used to exhibit the
collapse of interior double spaces across a save/load cycle. -/
def firstContent (st : DsState) : Option String :=
  match st.samples with
  | s :: _ =>
    match s with
    | .obj kvs =>
      match lookupKey kvs "messages" with
      | some (.arr (m :: _)) =>
        match m with
        | .obj mkvs =>
          match lookupKey mkvs "content" with
          | some (.str c) => some c
          | _ => none
        | _ => none
      | _ => none
    | _ => none
  | [] => none

/-- Counterexample to the unconditional reading of C7: a validated sample
whose content holds two consecutive spaces is altered by the save/load
cycle, because `Dataset.save` collapses the run to a single space inside
the serialized JSON string. -/
theorem c7_counterexample :
    firstContent (from_jsonl (save ⟨[sampleObj [msgObj "user" "a  b"]], []⟩)).1 =
      some "a b" ∧
    firstContent ⟨[sampleObj [msgObj "user" "a  b"]], []⟩ = some "a  b" ∧
    ("a b" : String) ≠ "a  b" :=
  ⟨rfl, rfl, by decide⟩

/-- C7: For a dataset of canonical samples (each a message object whose
role is user/assistant/system and whose content is ASCII text, control
characters limited to the short-escape set, with no two consecutive
spaces), `Dataset.from_jsonl` applied to the output of `Dataset.save`
reproduces the sample collection exactly and in order with no failures
and no error; `save` emits exactly one line per sample, and each line has
no whitespace other than isolated single spaces (in particular it is a
single line with all whitespace runs collapsed).  The no-double-space
proviso is necessary: contents with interior space runs are altered by
the cycle. -/
theorem c7_dataset_save_roundtrip (ds fs : List Json)
    (h : ∀ s ∈ ds, SampleOK s) :
    from_jsonl (save ⟨ds, fs⟩) = (⟨ds, []⟩, none) ∧
    (save ⟨ds, fs⟩).length = ds.length ∧
    ∀ line ∈ save ⟨ds, fs⟩,
      List.Chain' noWsPair line ∧
        ∀ ch ∈ line, pyIsSpaceChar ch = true → ch = ' ' := by
  refine ⟨?_, ?_, ?_⟩
  · unfold from_jsonl save
    rw [show (⟨ds, fs⟩ : DsState).samples = ds from rfl]
    rw [from_jsonlGo_save ds h ⟨[], []⟩]
    simp
  · simp [save]
  · intro line hline
    simp only [save, List.mem_map] at hline
    obtain ⟨s, hs, rfl⟩ := hline
    obtain ⟨msgs, rfl, hm⟩ := h s hs
    rw [saveLine_id msgs hm]
    obtain ⟨g1, g2, _⟩ := goodSeg_dumps_sample msgs hm
    exact ⟨g1, g2⟩

/-- Witness for C7 at a concrete one-sample dataset. -/
theorem c7_dataset_save_roundtrip_witness :
    from_jsonl (save ⟨[sampleObj [msgObj "user" "hi"]], []⟩) =
      (⟨[sampleObj [msgObj "user" "hi"]], []⟩, none) :=
  (c7_dataset_save_roundtrip [sampleObj [msgObj "user" "hi"]] []
    (by
      intro s hs
      have hse := List.mem_singleton.mp hs
      subst hse
      refine ⟨[msgObj "user" "hi"], rfl, ?_⟩
      intro m hm
      have hme := List.mem_singleton.mp hm
      subst hme
      exact ⟨"user", "hi", rfl, by decide, by decide,
        chain'_noSpacePair_of_no_space _ (by decide)⟩)).1
